import Mathlib

/-!
Verification of the stream-ingestion core: shallow embedding of the
playlist variant selection (`src/playlist.rs`), the budgeted-retry fetch
primitive (`src/http_client.rs`), the rotating output sink
(`src/output.rs`), the exit-hook command builder (`src/commands.rs`) and
the segment-ingestion loop (`src/downloader.rs`), together with theorems
about deduplication, finalization, byte accounting, the failure budget,
retry scheduling, file naming and placeholder rendering.

Modelling conventions:
* machine integers are `Nat` (with an explicit `% 2 ^ 64` where the source
  multiplies two `u64` values);
* `f64` frame rates and parsed decimals are modelled as `ℚ` (the inputs
  the program meets are exactly representable; `NaN`/`inf`/exponent forms
  of Rust float literals are outside the modelled grammar);
* the network, the filesystem-existence check, the shutdown flag, the
  rotation clock and URL joining are external capabilities; they enter
  the model as explicit oracle data consumed in exactly the order the
  source consults them;
* `std::fs::File::flush` buffers nothing and is a pure no-op, so flushes
  are not modelled as events; filesystem write/create errors (`io::Error`)
  are not modelled — of the `?`-propagated abnormal exits the model keeps
  the data-dependent one, `Url::join` failure inside the segment loop.
-/

/-! ### String utilities: Rust `str::replace`, zero padding, decimal rendering -/

/-- If `pat` is a leading pattern of `l`, return the remainder of `l`. -/
def stripPre : List Char → List Char → Option (List Char)
  | [], rest => some rest
  | _, [] => none
  | p :: ps, c :: cs => if p = c then stripPre ps cs else none

/-- Fueled worker for `strReplace`; replaces non-overlapping occurrences
left to right, as Rust `str::replace` does. -/
def replaceAux (pat sub : List Char) : Nat → List Char → List Char
  | 0, l => l
  | _ + 1, [] => []
  | fuel + 1, c :: rest =>
    match stripPre pat (c :: rest) with
    | some rem => sub ++ replaceAux pat sub fuel rem
    | none => c :: replaceAux pat sub fuel rest

/-- Model of Rust `str::replace` for a non-empty literal pattern. -/
def strReplace (s pat sub : String) : String :=
  if pat.toList = [] then s
  else String.mk (replaceAux pat.toList sub.toList (s.toList.length + 1) s.toList)

/-- Two-digit zero padding, as `{:02}` in Rust / `%M` in chrono. -/
def pad2 (n : Nat) : String := if n < 10 then "0" ++ toString n else toString n

/-- Four-digit zero padding, as chrono `%Y`. -/
def pad4 (n : Nat) : String :=
  if n < 10 then "000" ++ toString n
  else if n < 100 then "00" ++ toString n
  else if n < 1000 then "0" ++ toString n
  else toString n

/-! ### `src/commands.rs`: `format_bytes` and `run_exit_command` -/

/-- Rust `{:.2}` applied to the exact value `bytes / unit` where `unit` is a
power of two: round to two decimals, ties to even (the rounding Rust float
formatting performs; exact for `bytes < 2 ^ 53`). Returns the rendered
digit string. -/
def fmtFixed2 (bytes unit : Nat) : String :=
  let n := bytes * 100
  let q := n / unit
  let r := n % unit
  let v :=
    if unit < 2 * r then q + 1
    else if 2 * r < unit then q
    else if q % 2 = 0 then q else q + 1
  toString (v / 100) ++ "." ++ pad2 (v % 100)

/-- `format_bytes` from `src/commands.rs`: binary units, largest of
GB/MB/KB/B that the value reaches, two-decimal rendering. -/
def format_bytes (bytes : Nat) : String :=
  if 1024 * 1024 * 1024 ≤ bytes then fmtFixed2 bytes (1024 * 1024 * 1024) ++ " GB"
  else if 1024 * 1024 ≤ bytes then fmtFixed2 bytes (1024 * 1024) ++ " MB"
  else if 1024 ≤ bytes then fmtFixed2 bytes 1024 ++ " KB"
  else toString bytes ++ " B"

/-- The `%d` value in `run_exit_command`: last two path components of the
output directory, fewer if shallower, `"."` if it has none. -/
def dirLastTwo (components : List String) : String :=
  match components.reverse with
  | b :: a :: _ => a ++ "/" ++ b
  | [a] => a
  | [] => "."

/-- The `%t` value in `run_exit_command`: `H:MM:SS` when at least one hour
has elapsed, `M:SS` otherwise. -/
def fmtDurationSecs (duration_secs : Nat) : String :=
  let hours := duration_secs / 3600
  let minutes := duration_secs % 3600 / 60
  let seconds := duration_secs % 60
  if 0 < hours then toString hours ++ ":" ++ pad2 minutes ++ ":" ++ pad2 seconds
  else toString minutes ++ ":" ++ pad2 seconds

/-- The command string built by `run_exit_command` in `src/commands.rs`
(the shell invocation itself is outside the model): literal sequential
substring replacement of the five placeholders. -/
def run_exit_command_cmd (cmd_template : String) (duration_secs total_bytes : Nat)
    (output_dir_components : List String) : String :=
  let s1 := strReplace cmd_template "%d" (dirLastTwo output_dir_components)
  let s2 := strReplace s1 "%t" (fmtDurationSecs duration_secs)
  let s3 := strReplace s2 "%s" (format_bytes total_bytes)
  let s4 := strReplace s3 "%b" (toString total_bytes)
  strReplace s4 "%m" (toString (total_bytes / 1024 / 1024))

/-! ### `src/playlist.rs`: FPS extraction and `select_best_variant` -/

/-- `m3u8_rs::QuotedOrUnquoted`. -/
inductive QuotedOrUnquoted
  | quoted (s : String)
  | unquoted (s : String)
deriving DecidableEq

/-- `m3u8_rs::Resolution` (`u64` fields). -/
structure Resolution where
  width : Nat
  height : Nat
deriving DecidableEq

/-- `m3u8_rs::VariantStream`, restricted to the fields
`select_best_variant` reads; `other_attributes` is the free-form
attribute map, modelled as an association list (first match wins). -/
structure VariantStream where
  uri : String
  resolution : Option Resolution
  frame_rate : Option ℚ
  other_attributes : Option (List (String × QuotedOrUnquoted))
deriving DecidableEq

/-- The master-playlist data `select_best_variant` consumes. -/
structure MasterPlaylist where
  variants : List VariantStream
deriving DecidableEq

/-- Digit run to a natural number. -/
def digitsToNat (cs : List Char) : Nat :=
  cs.foldl (fun a c => 10 * a + (c.toNat - 48)) 0

/-- Model of Rust `str::parse::<f64>` on sign + decimal-digit + dot
strings (the grammar fragment the playlist code can meet); exponent,
`inf` and `nan` forms are not modelled and multiple dots fail, as in
Rust. -/
def parseDecToRat (cs0 : List Char) : Option ℚ :=
  let signed : Bool × List Char :=
    match cs0 with
    | '-' :: r => (true, r)
    | '+' :: r => (false, r)
    | r => (false, r)
  let cs := signed.2
  let ip := cs.takeWhile (fun c => c.isDigit)
  let rest := cs.dropWhile (fun c => c.isDigit)
  let mag : Option ℚ :=
    match rest with
    | [] => if ip.isEmpty then none else some (digitsToNat ip : ℚ)
    | '.' :: fp =>
      if fp.all (fun c => c.isDigit) && (!ip.isEmpty || !fp.isEmpty) then
        some ((digitsToNat ip : ℚ) + (digitsToNat fp : ℚ) / (10 : ℚ) ^ fp.length)
      else none
    | _ => none
  mag.map fun v => if signed.1 then -v else v

/-- The suffix after the first occurrence of the literal marker `FPS:`. -/
def afterFPS : List Char → Option (List Char)
  | 'F' :: 'P' :: 'S' :: ':' :: rest => some rest
  | _ :: rest => afterFPS rest
  | [] => none

/-- The second branch of `parse_fps_from_string`: locate `FPS:` anywhere
and parse the maximal run of digits and dots after it. -/
def fpsFindBranch (cs : List Char) : Option ℚ :=
  match afterFPS cs with
  | some rest => parseDecToRat (rest.takeWhile (fun c => c.isDigit || c = '.'))
  | none => none

/-- `parse_fps_from_string` from `src/playlist.rs`: exact `FPS:` leading
match parsed whole first, else the anywhere-in-string branch. -/
def parse_fps_from_string (s : String) : Option ℚ :=
  let cs := s.toList
  match stripPre ['F', 'P', 'S', ':'] cs with
  | some rest =>
    match parseDecToRat rest with
    | some fps => some fps
    | none => fpsFindBranch cs
  | none => fpsFindBranch cs

/-- The `other_attributes` fallback inside `extract_frame_rate`:
`NAME` attribute, quoted or unquoted, run through
`parse_fps_from_string`; `0` when anything is absent or unparseable. -/
def nameFps (v : VariantStream) : ℚ :=
  match v.other_attributes with
  | some attrs =>
    match (attrs.find? fun p => p.1 == "NAME").map (fun p => p.2) with
    | some (QuotedOrUnquoted.quoted s) | some (QuotedOrUnquoted.unquoted s) =>
      match parse_fps_from_string s with
      | some fps => fps
      | none => 0
    | none => 0
  | none => 0

/-- `extract_frame_rate` from `src/playlist.rs`: the standard
`FRAME-RATE` field when positive, else the `NAME` fallback. -/
def extract_frame_rate (v : VariantStream) : ℚ :=
  match v.frame_rate with
  | some fps => if 0 < fps then fps else nameFps v
  | none => nameFps v

/-- Resolution area `width * height` (`u64` multiplication wraps), `0`
when the resolution is absent. -/
def resolutionArea (v : VariantStream) : Nat :=
  match v.resolution with
  | some r => r.width * r.height % 2 ^ 64
  | none => 0

/-- `u64::cmp` on the two areas. -/
def natCmp (a b : Nat) : Ordering :=
  if a < b then .lt else if b < a then .gt else .eq

/-- `f64::partial_cmp` with the `unwrap_or(Equal)` fallback; on `ℚ` the
fallback is unreachable. -/
def ratCmp (a b : ℚ) : Ordering :=
  if a < b then .lt else if b < a then .gt else .eq

/-- The comparator passed to `max_by` in `select_best_variant`:
resolution area first, frame rate as the tie break. -/
def variantCmp (a b : VariantStream) : Ordering :=
  (natCmp (resolutionArea a) (resolutionArea b)).then
    (ratCmp (extract_frame_rate a) (extract_frame_rate b))

/-- One step of Rust `Iterator::max_by`: a later element replaces the
accumulator unless the accumulator compares strictly greater, so ties
keep the later element. -/
def maxByStep {α : Type} (cmp : α → α → Ordering) (acc : Option α) (x : α) : Option α :=
  match acc with
  | none => some x
  | some a => if cmp a x = .gt then some a else some x

/-- Rust `Iterator::max_by`: `none` on an empty list, otherwise the last
maximal element. -/
def max_by {α : Type} (l : List α) (cmp : α → α → Ordering) : Option α :=
  l.foldl (maxByStep cmp) none

/-- `select_best_variant` from `src/playlist.rs`. `joinBase` models
`base_url.join(..).ok()` for the fixed base URL: `Url::join` is fallible,
and its `Err` case surfaces here as `none`. The verbose print is
dropped. -/
def select_best_variant (master : MasterPlaylist) (joinBase : String → Option String) :
    Option String :=
  (max_by master.variants variantCmp).bind fun best => joinBase best.uri

/-- The lexicographic selection key of a variant. -/
def variantKey (v : VariantStream) : Nat × ℚ := (resolutionArea v, extract_frame_rate v)

/-- Lexicographic order on selection keys. -/
def keyLe (a b : Nat × ℚ) : Prop := a.1 < b.1 ∨ (a.1 = b.1 ∧ a.2 ≤ b.2)

/-! ### `src/output.rs`: `OutputFile` -/

/-- The local wall-clock fields chrono formats in `format_filename`. -/
structure Timestamp where
  year : Nat
  month : Nat
  day : Nat
  hour : Nat
  minute : Nat
deriving DecidableEq

/-- chrono `start.format("%Y_%m_%d-%H_%M")`. -/
def fmtStartTime (t : Timestamp) : String :=
  pad4 t.year ++ "_" ++ pad2 t.month ++ "_" ++ pad2 t.day ++ "-" ++
    pad2 t.hour ++ "_" ++ pad2 t.minute

/-- `OutputFile::format_filename` from `src/output.rs`. -/
def format_filename (start : Timestamp) (index : Nat) (file_extension : String) : String :=
  fmtStartTime start ++ "_" ++ toString index ++ "." ++ file_extension

/-- The persistent state of `OutputFile` (the open handle, the rotation
clock and the configured duration are capabilities; the clock enters the
loop model as the per-write `rotateDue` oracle bit). -/
structure OutputState where
  file_extension : String
  start_time : Timestamp
  segment_index : Nat
  output_dir : String
  total_bytes_written : Nat
deriving DecidableEq

/-- `OutputFile::current_path`. -/
def currentPath (st : OutputState) : String :=
  st.output_dir ++ "/" ++ format_filename st.start_time st.segment_index st.file_extension

/-- `OutputFile::new`: the chosen segment index is the first one whose
filename does not already exist (`onDisk` models `Path::exists`; the
hypothesis reflects that the source's scan loop terminates only when some
index is free). -/
def outputNew (file_extension output_dir : String) (start_time : Timestamp)
    (onDisk : String → Bool)
    (h : ∃ i, onDisk (output_dir ++ "/" ++ format_filename start_time i file_extension)
        = false) : OutputState :=
  { file_extension := file_extension
    start_time := start_time
    segment_index := Nat.find h
    output_dir := output_dir
    total_bytes_written := 0 }

/-- `OutputFile::write`: payloads are modelled by their byte length; the
source appends the bytes and adds `data.len()` to the lifetime counter. -/
def OutputState.write (st : OutputState) (len : Nat) : OutputState :=
  { st with total_bytes_written := st.total_bytes_written + len }

/-- `OutputFile::maybe_rotate`; `due` models
`segment_start.elapsed() >= segment_duration`. On rotation the completed
path is returned and the index advances by one. -/
def maybe_rotate (st : OutputState) (due : Bool) : OutputState × Option String :=
  if due then
    ({ st with segment_index := st.segment_index + 1 }, some (currentPath st))
  else (st, none)

/-- `OutputFile::finalize`: flush (a no-op on `std::fs::File`) and return
the current path, with no state change. -/
def OutputState.finalize (st : OutputState) : OutputState × String := (st, currentPath st)

/-! ### `src/http_client.rs`: `fetch_with_retry` -/

/-- How one attempt of `fetch_url` ends once it completes. -/
inductive FetchOutcome
  | success
  | failed
  | timedOut
deriving DecidableEq

/-- Trace events of `fetch_with_retry`: an attempt (its index, the
elapsed budget at its start, the timeout it ran under, the elapsed budget
when it ended, its outcome) and an inter-attempt sleep. -/
inductive FetchEv
  | att (idx elapsedAtStart timeoutUsed elapsedAfter : Nat) (outcome : FetchOutcome)
  | slp (elapsedBefore dur : Nat)
deriving DecidableEq

/-- Errors `fetch_with_retry` can return: an attempt's own error, the
timeout error, and the no-attempt-ever-ran fallback message. -/
inductive FetchErr
  | attemptErr (idx : Nat)
  | timedOut
  | budgetExhausted
deriving DecidableEq

/-- Network oracle for one attempt: how long the inner `fetch_url` would
take, and (if it completes) its result — `some` payload or `none` for a
fetch error. -/
structure AttemptBehavior where
  duration : Nat
  result : Option Nat
deriving DecidableEq

/-- The tail of one unsuccessful loop iteration in `fetch_with_retry`:
the shared sleep logic (`attempt < max_retries && elapsed < total`, sleep
`min delay remaining` when nonzero) followed by the next iteration, whose
result is passed in for both the slept and the unslept clock. -/
def afterAttempt (total : Nat) (isLast : Bool) (ev : FetchEv) (elapsed1 sl : Nat)
    (rNoSleep rSleep : List FetchEv × Except FetchErr Nat) :
    List FetchEv × Except FetchErr Nat :=
  if isLast = false ∧ elapsed1 < total then
    if sl = 0 then (ev :: rNoSleep.1, rNoSleep.2)
    else (ev :: .slp elapsed1 sl :: rSleep.1, rSleep.2)
  else (ev :: rNoSleep.1, rNoSleep.2)

/-- The attempt loop of `fetch_with_retry` over the remaining attempt
indices. Each iteration first checks the wall-clock budget, runs the
attempt under the remaining budget as its timeout (the attempt completes
when its duration fits the remaining budget, otherwise the timeout fires
at the deadline), then hands over to `afterAttempt`. -/
def fwrGo (total delay : Nat) (oracle : Nat → AttemptBehavior) :
    List Nat → Nat → Option FetchErr → List FetchEv × Except FetchErr Nat
  | [], _, lastErr => ([], .error (lastErr.getD .budgetExhausted))
  | i :: rest, elapsed, lastErr =>
    if total ≤ elapsed then ([], .error (lastErr.getD .budgetExhausted))
    else
      let remaining := total - elapsed
      if remaining = 0 then ([], .error (lastErr.getD .budgetExhausted))
      else
        let a := oracle i
        if a.duration ≤ remaining then
          match a.result with
          | some data => ([.att i elapsed remaining (elapsed + a.duration) .success], .ok data)
          | none =>
            let elapsed1 := elapsed + a.duration
            let sl := min delay (total - elapsed1)
            afterAttempt total rest.isEmpty (.att i elapsed remaining elapsed1 .failed)
              elapsed1 sl
              (fwrGo total delay oracle rest elapsed1 (some (.attemptErr i)))
              (fwrGo total delay oracle rest (elapsed1 + sl) (some (.attemptErr i)))
        else
          let elapsed1 := elapsed + remaining
          let sl := min delay (total - elapsed1)
          afterAttempt total rest.isEmpty (.att i elapsed remaining elapsed1 .timedOut)
            elapsed1 sl
            (fwrGo total delay oracle rest elapsed1 (some .timedOut))
            (fwrGo total delay oracle rest (elapsed1 + sl) (some .timedOut))

/-- `fetch_with_retry` from `src/http_client.rs`: attempts `0..=max_retries`
under one shared wall-clock budget, starting with no recorded error. -/
def fetch_with_retry (total max_retries delay : Nat) (oracle : Nat → AttemptBehavior) :
    List FetchEv × Except FetchErr Nat :=
  fwrGo total delay oracle (List.range (max_retries + 1)) 0 none

/-- The per-attempt conditions of the spec's retry schedule: consecutive
numbering within `0..=maxR`, a start strictly inside the budget, the
attempt's own timeout equal to the remaining budget, and an end no later
than the deadline. -/
def attHead (total maxR i elapsed j eAt tUsed eAfter : Nat) : Bool :=
  j == i && decide (i ≤ maxR) && eAt == elapsed && decide (eAt < total) &&
    tUsed == total - eAt && decide (eAt ≤ eAfter) && decide (eAfter ≤ total)

/-- Follows the spec's words for the retry schedule: attempts are numbered
consecutively within `0..=maxR`, an attempt starts only while the budget
is unspent and runs under exactly the remaining budget, a sleep follows an
unsuccessful attempt only when it is not the last attempt and budget
remains, sleeps last `min delay remaining` and advance the clock, and two
attempts are adjacent without a sleep only when the configured delay is
zero. -/
def schedOk (total delay maxR : Nat) : Nat → Nat → List FetchEv → Bool
  | _, _, [] => true
  | i, elapsed, [.att j eAt tUsed eAfter _] => attHead total maxR i elapsed j eAt tUsed eAfter
  | i, elapsed, .att j eAt tUsed eAfter _ :: .slp eB dur :: rest1 =>
    attHead total maxR i elapsed j eAt tUsed eAfter &&
      eB == eAfter && decide (i < maxR) && dur == min delay (total - eB) &&
      decide (dur ≠ 0) && decide (eB < total) &&
      schedOk total delay maxR (i + 1) (eB + dur) rest1
  | i, elapsed, .att j eAt tUsed eAfter _ :: .att j2 eAt2 tUsed2 eAfter2 o2 :: rest2 =>
    attHead total maxR i elapsed j eAt tUsed eAfter && delay == 0 &&
      schedOk total delay maxR (i + 1) eAfter (.att j2 eAt2 tUsed2 eAfter2 o2 :: rest2)
  | _, _, .slp _ _ :: _ => false

/-- Accumulator step remembering the most recent attempt event. -/
def lastAttStep (acc : Option FetchEv) (e : FetchEv) : Option FetchEv :=
  match e with
  | .att _ _ _ _ _ => some e
  | .slp _ _ => acc

/-- The last attempt event of a retry trace. -/
def lastAttEv (tr : List FetchEv) : Option FetchEv := tr.foldl lastAttStep none

/-- The error an attempt event records. -/
def errOfEv : FetchEv → Option FetchErr
  | .att i _ _ _ .failed => some (.attemptErr i)
  | .att _ _ _ _ .timedOut => some .timedOut
  | _ => none

/-! ### `src/downloader.rs`: `TsDownloader::run` -/

/-- The slice of `DownloadConfig` the loop's control flow reads. The
remaining fields (URLs, intervals, timeout, retry counts, verbosity)
parameterize the external capabilities, whose responses arrive through
the cycle environment. -/
structure DownloadConfig where
  max_failures : Nat
  on_segment : Option String
deriving DecidableEq

/-- Environment of one segment iteration: the shutdown flag read before
the segment, whether `media_url.join(uri)` succeeds, the fetch result
(payload length on success) and whether the rotation clock has expired
when `maybe_rotate` runs. -/
structure SegEnv where
  shutdown : Bool
  joinOk : Bool
  fetch : Option Nat
  rotateDue : Bool
deriving DecidableEq

/-- Environment consulted when the source's `SegEnv` list runs short:
no shutdown, join succeeds, fetch fails, no rotation due. -/
def defaultSegEnv : SegEnv := ⟨false, true, none, false⟩

/-- What `m3u8_rs::parse_playlist` returns for the fetched body: a media
playlist (its segment URIs in order plus the `end_list` flag), a master
playlist, or a parse failure. -/
inductive ParseOutcome
  | media (segs : List String) (end_list : Bool)
  | master
  | failed
deriving DecidableEq

/-- Outcome of the playlist poll: the fetch itself failed, or a body was
fetched and parsed with the given outcome. -/
inductive PollOutcome
  | fetchErr
  | fetched (p : ParseOutcome)
deriving DecidableEq

/-- One cycle of the loop's environment: the shutdown flag at the top of
the loop, the poll outcome, and the per-segment environments. -/
structure PollCycle where
  shutdownAtTop : Bool
  poll : PollOutcome
  segEnv : List SegEnv
deriving DecidableEq

/-- Observable actions of one run, in program order. -/
inductive Ev
  | examineSeg (uri : String)
  | fetchSeg (uri : String) (result : Option Nat)
  | writeSeg (len : Nat)
  | rotateEv (completed : String)
  | hookSeg (path : String)
  | sleepPoll
  | finalizeEv
  | hookFinal (path : String)
deriving DecidableEq

/-- Why the loop stopped: the three `break` paths, and the `?`-propagated
`Url::join` error inside the segment loop. -/
inductive ExitReason
  | shutdownReq
  | endOfStream
  | budgetExhausted
  | joinErr (uri : String)
deriving DecidableEq

/-- The mutable state of `TsDownloader::run`: the seen set (a list with
membership as the set), the consecutive-failure counter, the output file
state and the `finalized` flag local to `run`. -/
structure LoopState where
  seen_segments : List String
  consecutive_failures : Nat
  output : OutputState
  finalized : Bool
deriving DecidableEq

/-- The final-file completion hook dispatch (`run_segment_command_async`
on a finalized path), present only when `on_segment` is configured. -/
def hookEvs (cfg : DownloadConfig) (p : String) : List Ev :=
  match cfg.on_segment with
  | some _ => [.hookFinal p]
  | none => []

/-- The rotation completion hook dispatch. -/
def segHookEvs (cfg : DownloadConfig) (p : String) : List Ev :=
  match cfg.on_segment with
  | some _ => [.hookSeg p]
  | none => []

/-- The events a rotation produces: the completed path and, when a hook
template is configured, its asynchronous dispatch. -/
def rotTraceOf (cfg : DownloadConfig) (completed : Option String) : List Ev :=
  match completed with
  | some c => .rotateEv c :: segHookEvs cfg c
  | none => []

/-- The `for segment in &media_playlist.segments` loop: shutdown check,
seen-set check, insert before fetch, `Url::join` (whose failure aborts
`run` through `?`), fetch, write and `maybe_rotate` with its hook.
Returns the new state, the trace, and `some uri` when join failed. -/
def procSegs (cfg : DownloadConfig) :
    List String → List SegEnv → LoopState → LoopState × List Ev × Option String
  | [], _, st => (st, [], none)
  | uri :: rest, envs, st =>
    let e := envs.headD defaultSegEnv
    if e.shutdown then (st, [], none)
    else if uri ∈ st.seen_segments then
      let r := procSegs cfg rest envs.tail st
      (r.1, .examineSeg uri :: r.2.1, r.2.2)
    else
      let st1 := { st with seen_segments := uri :: st.seen_segments }
      if e.joinOk then
        match e.fetch with
        | some len =>
          let st2 := { st1 with output := st1.output.write len }
          let rot := maybe_rotate st2.output e.rotateDue
          let st3 := { st2 with output := rot.1 }
          let r := procSegs cfg rest envs.tail st3
          (r.1,
            .examineSeg uri :: .fetchSeg uri (some len) :: .writeSeg len ::
              (rotTraceOf cfg rot.2 ++ r.2.1),
            r.2.2)
        | none =>
          let r := procSegs cfg rest envs.tail st1
          (r.1, .examineSeg uri :: .fetchSeg uri none :: r.2.1, r.2.2)
      else (st1, [.examineSeg uri], some uri)

/-- The shared failure branch for a playlist fetch error and a playlist
parse failure: increment the counter, stop when the budget is configured
and reached, otherwise sleep the poll interval and retry. -/
def failStep (cfg : DownloadConfig) (st : LoopState) :
    LoopState × List Ev × Option ExitReason :=
  let st1 := { st with consecutive_failures := st.consecutive_failures + 1 }
  if 0 < cfg.max_failures ∧ cfg.max_failures ≤ st.consecutive_failures + 1 then
    (st1, [], some .budgetExhausted)
  else (st1, [.sleepPoll], none)

/-- One iteration of the `loop` in `TsDownloader::run`. `none` as the
exit means the loop continues with the next cycle. -/
def stepCycle (cfg : DownloadConfig) (st : LoopState) (c : PollCycle) :
    LoopState × List Ev × Option ExitReason :=
  if c.shutdownAtTop then
    ({ st with finalized := true }, .finalizeEv :: hookEvs cfg (currentPath st.output),
      some .shutdownReq)
  else
    match c.poll with
    | .fetchErr => failStep cfg st
    | .fetched po =>
      match po with
      | .media segs end_list =>
        let st0 := { st with consecutive_failures := 0 }
        let r := procSegs cfg segs c.segEnv st0
        match r.2.2 with
        | some uri => (r.1, r.2.1, some (.joinErr uri))
        | none =>
          if end_list then
            ({ r.1 with finalized := true },
              r.2.1 ++ .finalizeEv :: hookEvs cfg (currentPath r.1.output),
              some .endOfStream)
          else (r.1, r.2.1 ++ [.sleepPoll], none)
      | _ => failStep cfg st

/-- The `loop` of `TsDownloader::run` driven by a finite list of cycle
environments; `none` as the exit means the environment ran out while the
loop was still polling. -/
def runLoop (cfg : DownloadConfig) :
    List PollCycle → LoopState → LoopState × List Ev × Option ExitReason
  | [], st => (st, [], none)
  | c :: cs, st =>
    let r := stepCycle cfg st c
    match r.2.2 with
    | some ex => (r.1, r.2.1, some ex)
    | none =>
      let r2 := runLoop cfg cs r.1
      (r2.1, r.2.1 ++ r2.2.1, r2.2.2)

/-- `TsDownloader::run`: the loop followed by the
`if !finalized { finalize; hook }` epilogue. A `Url::join` error
propagates out of `run` through `?` before the epilogue; when the cycle
environment is exhausted the loop is still running and no epilogue
applies. -/
def runFull (cfg : DownloadConfig) (cs : List PollCycle) (st : LoopState) :
    LoopState × List Ev × Option ExitReason :=
  let r := runLoop cfg cs st
  match r.2.2 with
  | some .shutdownReq | some .endOfStream | some .budgetExhausted =>
    if r.1.finalized then r
    else
      ({ r.1 with finalized := true },
        r.2.1 ++ .finalizeEv :: hookEvs cfg (currentPath r.1.output), r.2.2)
  | _ => r

/-- The state `TsDownloader::new` plus the start of `run` set up: empty
seen set, zero failures, not finalized. -/
def initLoopState (out : OutputState) : LoopState :=
  { seen_segments := [], consecutive_failures := 0, output := out, finalized := false }

/-! ### Trace observations -/

/-- The URI of an examine event. -/
def examineUriOf : Ev → Option String
  | .examineSeg u => some u
  | _ => none

/-- The URI of a segment-fetch event (successes and failures alike). -/
def fetchUriOf : Ev → Option String
  | .fetchSeg u _ => some u
  | _ => none

/-- The payload length of a successful segment fetch. -/
def fetchOkLenOf : Ev → Option Nat
  | .fetchSeg _ (some n) => some n
  | _ => none

/-- The length of a write event. -/
def writeLenOf : Ev → Option Nat
  | .writeSeg n => some n
  | _ => none

/-- Whether an event is the finalize call. -/
def isFinalizeEv : Ev → Bool
  | .finalizeEv => true
  | _ => false

/-- Whether an event dispatches the final-file completion hook. -/
def isHookFinal : Ev → Bool
  | .hookFinal _ => true
  | _ => false

/-- Raw URIs the segment loop examined (those that passed the shutdown
check), in order, duplicates included. -/
def examinedUris (tr : List Ev) : List String := tr.filterMap examineUriOf

/-- Raw URIs whose segment download started, in order. -/
def fetchUris (tr : List Ev) : List String := tr.filterMap fetchUriOf

/-- Payload lengths of the successful segment fetches, in order. -/
def fetchOkLens (tr : List Ev) : List Nat := tr.filterMap fetchOkLenOf

/-- Payload lengths appended to the output, in order. -/
def writeLens (tr : List Ev) : List Nat := tr.filterMap writeLenOf

/-- How many times `finalize` ran. -/
def finalizeCount (tr : List Ev) : Nat := tr.countP isFinalizeEv

/-- How many times the final-file completion hook was dispatched. -/
def hookFinalCount (tr : List Ev) : Nat := tr.countP isHookFinal

/-- First occurrences of a URI stream that are not in `seen`, in order:
the URIs an insert-then-fetch pass over the stream downloads. -/
def newFirsts (seen : List String) : List String → List String
  | [] => []
  | u :: rest => if u ∈ seen then newFirsts seen rest else u :: newFirsts (u :: seen) rest

/-- First occurrences of a URI stream, in first-seen order. -/
def firstSeen (l : List String) : List String := newFirsts [] l

/-- The URI whose `Url::join` failure aborted the run, if any. -/
def exitAbortUris : Option ExitReason → List String
  | some (.joinErr u) => [u]
  | _ => []

/-- The inner abort marker of the segment loop, as a list. -/
def abortUris : Option String → List String
  | some u => [u]
  | none => []

/-! ### Concrete inputs for the worked examples -/

/-- The 640×360 at 30 fps variant of the spec's selection example. -/
def variant360p : VariantStream :=
  { uri := "v360p30.m3u8", resolution := some ⟨640, 360⟩, frame_rate := some 30,
    other_attributes := none }

/-- The 1920×1080 at 30 fps variant of the spec's selection example. -/
def variant1080p30 : VariantStream :=
  { uri := "v1080p30.m3u8", resolution := some ⟨1920, 1080⟩, frame_rate := some 30,
    other_attributes := none }

/-- The 1920×1080 at 60 fps variant of the spec's selection example. -/
def variant1080p60 : VariantStream :=
  { uri := "v1080p60.m3u8", resolution := some ⟨1920, 1080⟩, frame_rate := some 60,
    other_attributes := none }

/-- The spec's three-variant master playlist. -/
def exampleMaster : MasterPlaylist :=
  { variants := [variant360p, variant1080p30, variant1080p60] }

/-- `Url::join` against the base `http://example.com/master.m3u8` on the
relative URIs of the example: always succeeds. -/
def exampleJoin (u : String) : Option String := some ("http://example.com/" ++ u)

/-- A variant carrying the URI `https://`. -/
def cexVariant : VariantStream :=
  { uri := "https://", resolution := some ⟨640, 360⟩, frame_rate := some 30,
    other_attributes := none }

/-- A master playlist whose only variant carries the URI `https://`. -/
def cexMaster : MasterPlaylist := { variants := [cexVariant] }

/-- `Url::join` against an `http` base when the reference is the invalid
absolute URL `https://`: the `url` crate fails with an empty-host parse
error, so `.ok()` is `none`; every other URI of interest resolves. -/
def cexJoin (u : String) : Option String :=
  if u = "https://" then none else some ("http://example.com/" ++ u)

/-- A concrete start timestamp: 2025-10-12 13:45 local time. -/
def tsW : Timestamp := ⟨2025, 10, 12, 13, 45⟩

/-- A directory-state oracle under which no candidate filename exists. -/
def odFalse : String → Bool := fun _ => false

/-- A network oracle whose every attempt takes 4 units and fails. -/
def oracleW : Nat → AttemptBehavior := fun _ => ⟨4, none⟩

/-- A concrete output-file state used to instantiate the loop theorems. -/
def outW : OutputState :=
  { file_extension := "ts", start_time := tsW, segment_index := 0,
    output_dir := "rec/show1", total_bytes_written := 0 }

/-- A loop configuration with a failure budget of 2 and no hook. -/
def cfgW : DownloadConfig := { max_failures := 2, on_segment := some "cmd" }

/-- One cycle delivering a two-segment media playlist (one fetch succeeds
with 7 bytes, one fails), not at end of stream, then a repeat of the same
playlist, then end of stream. -/
def cyclesW : List PollCycle :=
  [ { shutdownAtTop := false,
      poll := .fetched (.media ["a.ts", "b.ts"] false),
      segEnv := [⟨false, true, some 7, false⟩, ⟨false, true, none, false⟩] },
    { shutdownAtTop := false,
      poll := .fetched (.media ["a.ts", "b.ts", "c.ts"] true),
      segEnv := [⟨false, true, some 5, false⟩, ⟨false, true, some 3, true⟩,
        ⟨false, true, some 2, false⟩] } ]

/-! ### Helper lemmas -/

@[simp]
theorem write_start_time (st : OutputState) (len : Nat) :
    (st.write len).start_time = st.start_time := rfl

@[simp]
theorem write_output_dir (st : OutputState) (len : Nat) :
    (st.write len).output_dir = st.output_dir := rfl

@[simp]
theorem write_file_extension (st : OutputState) (len : Nat) :
    (st.write len).file_extension = st.file_extension := rfl

@[simp]
theorem write_total_bytes (st : OutputState) (len : Nat) :
    (st.write len).total_bytes_written = st.total_bytes_written + len := rfl

@[simp]
theorem maybe_rotate_start_time (st : OutputState) (due : Bool) :
    (maybe_rotate st due).1.start_time = st.start_time := by
  unfold maybe_rotate; split <;> rfl

@[simp]
theorem maybe_rotate_output_dir (st : OutputState) (due : Bool) :
    (maybe_rotate st due).1.output_dir = st.output_dir := by
  unfold maybe_rotate; split <;> rfl

@[simp]
theorem maybe_rotate_file_extension (st : OutputState) (due : Bool) :
    (maybe_rotate st due).1.file_extension = st.file_extension := by
  unfold maybe_rotate; split <;> rfl

@[simp]
theorem maybe_rotate_total_bytes (st : OutputState) (due : Bool) :
    (maybe_rotate st due).1.total_bytes_written = st.total_bytes_written := by
  unfold maybe_rotate; split <;> rfl

theorem maybe_rotate_index (st : OutputState) (due : Bool) :
    (maybe_rotate st due).1.segment_index =
      (if due then st.segment_index + 1 else st.segment_index) := by
  unfold maybe_rotate; split <;> rfl

/-! ### C8 -/

/-- C8: `OutputFile::finalize` is idempotent: a second call returns the
same path as the first, performs no rotation or reopening (the state,
including the segment index, is untouched), and no further work follows
the first call's flush (`std::fs::File::flush` is a no-op). -/
theorem finalize_idempotent (st : OutputState) :
    st.finalize.2 = currentPath st ∧
    st.finalize.1 = st ∧
    st.finalize.1.finalize.2 = st.finalize.2 ∧
    st.finalize.1.finalize.1 = st.finalize.1 ∧
    st.finalize.1.segment_index = st.segment_index :=
  ⟨rfl, rfl, rfl, rfl, rfl⟩

/-! ### C9 -/

/-- C9: the exit hook builds its command by literal substring replacement:
`%d` is the last two output-directory components (fewer when shallower,
`.` when none), `%t` the elapsed time as `H:MM:SS` from one hour up and
`M:SS` below, `%s` the size in binary units with two-decimal rounding
under the largest of GB/MB/KB/B reached, `%b` the raw byte count and `%m`
the mebibyte count by floor division by `1024 * 1024`; the template
`"%d %t %s"` with 3725 s, 1572864 bytes and a directory ending in
`rec/show1` renders `"rec/show1 1:02:05 1.50 MB"`. -/
theorem exit_command_placeholders :
    run_exit_command_cmd "%d %t %s" 3725 1572864 ["home", "user", "rec", "show1"] =
      "rec/show1 1:02:05 1.50 MB" ∧
    fmtDurationSecs 3725 = "1:02:05" ∧
    format_bytes 1572864 = "1.50 MB" ∧
    dirLastTwo ["home", "user", "rec", "show1"] = "rec/show1" ∧
    run_exit_command_cmd "%b" 0 3146000 [] = "3146000" ∧
    run_exit_command_cmd "%m" 0 3146000 [] = "3" ∧
    (∀ b : Nat, b / 1024 / 1024 = b / (1024 * 1024)) ∧
    (∀ b : Nat, b < 1024 → format_bytes b = toString b ++ " B") ∧
    (∀ b : Nat, 1024 ≤ b → b < 1024 * 1024 → format_bytes b = fmtFixed2 b 1024 ++ " KB") ∧
    (∀ b : Nat, 1024 * 1024 ≤ b → b < 1024 * 1024 * 1024 →
      format_bytes b = fmtFixed2 b (1024 * 1024) ++ " MB") ∧
    (∀ b : Nat, 1024 * 1024 * 1024 ≤ b →
      format_bytes b = fmtFixed2 b (1024 * 1024 * 1024) ++ " GB") ∧
    (∀ d : Nat, 3600 ≤ d → fmtDurationSecs d =
      toString (d / 3600) ++ ":" ++ pad2 (d % 3600 / 60) ++ ":" ++ pad2 (d % 60)) ∧
    (∀ d : Nat, d < 3600 → fmtDurationSecs d =
      toString (d % 3600 / 60) ++ ":" ++ pad2 (d % 60)) ∧
    dirLastTwo [] = "." ∧
    (∀ a : String, dirLastTwo [a] = a) ∧
    (∀ (l : List String) (a b : String), dirLastTwo (l ++ [a, b]) = a ++ "/" ++ b) := by
  refine ⟨by decide, by decide, by decide, by decide, by decide, by decide, ?_, ?_, ?_, ?_, ?_,
    ?_, ?_, by decide, ?_, ?_⟩
  · intro b; omega
  · intro b hb; unfold format_bytes
    rw [if_neg (by omega), if_neg (by omega), if_neg (by omega)]
  · intro b h1 h2; unfold format_bytes
    rw [if_neg (by omega), if_neg (by omega), if_pos (by omega)]
  · intro b h1 h2; unfold format_bytes
    rw [if_neg (by omega), if_pos (by omega)]
  · intro b h1; unfold format_bytes
    rw [if_pos (by omega)]
  · intro d hd; unfold fmtDurationSecs
    rw [if_pos (by omega)]
  · intro d hd; unfold fmtDurationSecs
    rw [if_neg (by omega)]
  · intro a; rfl
  · intro l a b; unfold dirLastTwo
    rw [List.reverse_append]
    rfl

/-- Witness for C9 at the concrete byte count of the worked example. -/
theorem exit_command_placeholders_witness :
    format_bytes 1572864 = fmtFixed2 1572864 (1024 * 1024) ++ " MB" := by
  obtain ⟨-, -, -, -, -, -, -, -, -, hMB, -⟩ := exit_command_placeholders
  exact hMB 1572864 (by omega) (by omega)

theorem procSegs_meta (cfg : DownloadConfig) :
    ∀ (segs : List String) (envs : List SegEnv) (st : LoopState),
      (procSegs cfg segs envs st).1.output.start_time = st.output.start_time ∧
      (procSegs cfg segs envs st).1.output.output_dir = st.output.output_dir ∧
      (procSegs cfg segs envs st).1.output.file_extension = st.output.file_extension ∧
      (procSegs cfg segs envs st).1.consecutive_failures = st.consecutive_failures ∧
      (procSegs cfg segs envs st).1.finalized = st.finalized := by
  intro segs
  induction segs with
  | nil => intro envs st; simp [procSegs]
  | cons uri rest ih =>
    intro envs st
    simp only [procSegs]
    split
    · simp
    · split
      · simp [ih]
      · split
        · split
          · simp [ih]
          · simp [ih]
        · simp

theorem stepCycle_meta (cfg : DownloadConfig) (st : LoopState) (c : PollCycle) :
    (stepCycle cfg st c).1.output.start_time = st.output.start_time ∧
    (stepCycle cfg st c).1.output.output_dir = st.output.output_dir ∧
    (stepCycle cfg st c).1.output.file_extension = st.output.file_extension := by
  cases hsd : c.shutdownAtTop with
  | true => simp [stepCycle, hsd]
  | false =>
    cases hp : c.poll with
    | fetchErr =>
      simp only [stepCycle, hsd, hp, Bool.false_eq_true, if_false]
      unfold failStep; split <;> simp
    | fetched po =>
      cases po with
      | media segs end_list =>
        have h := procSegs_meta cfg segs c.segEnv { st with consecutive_failures := 0 }
        simp only [stepCycle, hsd, hp, Bool.false_eq_true, if_false]
        cases hr : (procSegs cfg segs c.segEnv { st with consecutive_failures := 0 }).2.2 with
        | some uri => simp only [hr]; exact ⟨h.1, h.2.1, h.2.2.1⟩
        | none =>
          simp only [hr]
          split <;> exact ⟨h.1, h.2.1, h.2.2.1⟩
      | master =>
        simp only [stepCycle, hsd, hp, Bool.false_eq_true, if_false]
        unfold failStep; split <;> simp
      | failed =>
        simp only [stepCycle, hsd, hp, Bool.false_eq_true, if_false]
        unfold failStep; split <;> simp

theorem runLoop_meta (cfg : DownloadConfig) :
    ∀ (cs : List PollCycle) (st : LoopState),
      (runLoop cfg cs st).1.output.start_time = st.output.start_time ∧
      (runLoop cfg cs st).1.output.output_dir = st.output.output_dir ∧
      (runLoop cfg cs st).1.output.file_extension = st.output.file_extension := by
  intro cs
  induction cs with
  | nil => intro st; simp [runLoop]
  | cons c cs ih =>
    intro st
    have hs := stepCycle_meta cfg st c
    have hr := ih (stepCycle cfg st c).1
    simp only [runLoop]
    cases hex : (stepCycle cfg st c).2.2 with
    | some ex => simp only [hex]; exact hs
    | none =>
      simp only [hex]
      exact ⟨hr.1.trans hs.1, hr.2.1.trans hs.2.1, hr.2.2.trans hs.2.2⟩

theorem runFull_meta (cfg : DownloadConfig) (cs : List PollCycle) (st : LoopState) :
    (runFull cfg cs st).1.output.start_time = st.output.start_time ∧
    (runFull cfg cs st).1.output.output_dir = st.output.output_dir ∧
    (runFull cfg cs st).1.output.file_extension = st.output.file_extension := by
  have h := runLoop_meta cfg cs st
  simp only [runFull]
  cases hex : (runLoop cfg cs st).2.2 with
  | none => simp only [hex]; exact h
  | some ex =>
    cases ex <;> simp only [hex] <;> first
      | exact h
      | (split <;> exact h)

/-! ### C7 -/

/-- C7 counterexample: the filename the code produces for
2025-10-12 13:45, index 0, extension `ts` separates the date part and the
`HH_MM` part with a hyphen (`2025_10_12-13_45_0.ts`), not with the
underscore the claimed scheme `{local-date}_{local-HH_MM}_{index}.{ext}`
prescribes. -/
theorem output_filename_scheme_cex :
    format_filename tsW 0 "ts" ≠
      pad4 tsW.year ++ "_" ++ pad2 tsW.month ++ "_" ++ pad2 tsW.day ++ "_" ++
        pad2 tsW.hour ++ "_" ++ pad2 tsW.minute ++ "_" ++ toString 0 ++ "." ++ "ts" := by
  decide

/-- C7 (amended: the date and the `HH_MM` part are separated by a hyphen,
so the scheme is `{local-date}-{local-HH_MM}_{index}.{extension}`): at
creation the index is the first value, from 0 ascending, whose filename
does not already exist — an existing file is never overwritten — each
rotation increments the index by exactly one, and every file of a run
keeps the start timestamp captured at creation. -/
theorem output_naming_and_rotation (ts : Timestamp) (idx : Nat) (ext dir : String)
    (onDisk : String → Bool)
    (h : ∃ i, onDisk (dir ++ "/" ++ format_filename ts i ext) = false) :
    format_filename ts idx ext =
      pad4 ts.year ++ "_" ++ pad2 ts.month ++ "_" ++ pad2 ts.day ++ "-" ++
        pad2 ts.hour ++ "_" ++ pad2 ts.minute ++ "_" ++ toString idx ++ "." ++ ext ∧
    onDisk (currentPath (outputNew ext dir ts onDisk h)) = false ∧
    (∀ j, j < (outputNew ext dir ts onDisk h).segment_index →
      onDisk (dir ++ "/" ++ format_filename ts j ext) = true) ∧
    (outputNew ext dir ts onDisk h).start_time = ts ∧
    (outputNew ext dir ts onDisk h).segment_index = Nat.find h ∧
    (∀ (st : OutputState) (due : Bool),
      (maybe_rotate st due).1.segment_index =
        (if due then st.segment_index + 1 else st.segment_index) ∧
      (maybe_rotate st due).1.start_time = st.start_time) ∧
    (∀ (cfg : DownloadConfig) (cs : List PollCycle) (st0 : LoopState),
      (runFull cfg cs st0).1.output.start_time = st0.output.start_time ∧
      (runFull cfg cs st0).1.output.file_extension = st0.output.file_extension ∧
      (runFull cfg cs st0).1.output.output_dir = st0.output.output_dir) := by
  refine ⟨?_, ?_, ?_, rfl, rfl, ?_, ?_⟩
  · simp [format_filename, fmtStartTime, String.append_assoc]
  · exact Nat.find_spec h
  · intro j hj
    have hmin := Nat.find_min h hj
    cases hx : onDisk (dir ++ "/" ++ format_filename ts j ext) with
    | false => exact absurd hx hmin
    | true => rfl
  · intro st due
    exact ⟨maybe_rotate_index st due, maybe_rotate_start_time st due⟩
  · intro cfg cs st0
    have h := runFull_meta cfg cs st0
    exact ⟨h.1, h.2.2, h.2.1⟩

/-- Witness for C7 at a concrete timestamp and an empty directory. -/
theorem output_naming_and_rotation_witness :
    odFalse (currentPath (outputNew "ts" "rec" tsW odFalse ⟨0, rfl⟩)) = false ∧
    (outputNew "ts" "rec" tsW odFalse ⟨0, rfl⟩).start_time = tsW ∧
    format_filename tsW 3 "ts" =
      pad4 tsW.year ++ "_" ++ pad2 tsW.month ++ "_" ++ pad2 tsW.day ++ "-" ++
        pad2 tsW.hour ++ "_" ++ pad2 tsW.minute ++ "_" ++ toString 3 ++ "." ++ "ts" := by
  have h := output_naming_and_rotation tsW 3 "ts" "rec" odFalse ⟨0, rfl⟩
  exact ⟨h.2.1, h.2.2.2.1, h.1⟩

/-! ### C6 -/

theorem keyLe_refl (a : Nat × ℚ) : keyLe a a := Or.inr ⟨rfl, le_refl _⟩

theorem keyLe_trans {a b c : Nat × ℚ} (h1 : keyLe a b) (h2 : keyLe b c) : keyLe a c := by
  unfold keyLe at *
  rcases h1 with h1 | ⟨e1, h1⟩ <;> rcases h2 with h2 | ⟨e2, h2⟩
  · exact Or.inl (h1.trans h2)
  · exact Or.inl (e2 ▸ h1)
  · exact Or.inl (e1 ▸ h2)
  · exact Or.inr ⟨e1.trans e2, h1.trans h2⟩

theorem variantCmp_gt_le {a b : VariantStream} (h : variantCmp a b = .gt) :
    keyLe (variantKey b) (variantKey a) := by
  unfold variantCmp natCmp ratCmp at h
  unfold keyLe variantKey
  dsimp only
  rcases lt_trichotomy (resolutionArea a) (resolutionArea b) with h1 | h1 | h1
  · rw [if_pos h1] at h; simp [Ordering.then] at h
  · rw [if_neg (by omega), if_neg (by omega)] at h
    simp only [Ordering.then] at h
    rcases lt_trichotomy (extract_frame_rate a) (extract_frame_rate b) with h2 | h2 | h2
    · rw [if_pos h2] at h; exact absurd h (by decide)
    · rw [if_neg (by simp [h2]), if_neg (by simp [h2])] at h
      exact absurd h (by decide)
    · exact Or.inr ⟨h1.symm, le_of_lt h2⟩
  · exact Or.inl h1

theorem variantCmp_ngt_le {a b : VariantStream} (h : variantCmp a b ≠ .gt) :
    keyLe (variantKey a) (variantKey b) := by
  unfold variantCmp natCmp ratCmp at h
  unfold keyLe variantKey
  dsimp only
  rcases lt_trichotomy (resolutionArea a) (resolutionArea b) with h1 | h1 | h1
  · exact Or.inl h1
  · rw [if_neg (by omega), if_neg (by omega)] at h
    simp only [Ordering.then] at h
    rcases lt_trichotomy (extract_frame_rate a) (extract_frame_rate b) with h2 | h2 | h2
    · exact Or.inr ⟨h1, le_of_lt h2⟩
    · exact Or.inr ⟨h1, le_of_eq h2⟩
    · rw [if_neg (by simp [asymm h2]), if_pos h2] at h
      exact absurd rfl h
  · rw [if_neg (by omega), if_pos h1] at h
    simp [Ordering.then] at h

theorem maxByStep_foldl (t : List VariantStream) :
    ∀ a0 : VariantStream,
      ∃ b, t.foldl (maxByStep variantCmp) (some a0) = some b ∧
        (b = a0 ∨ b ∈ t) ∧ keyLe (variantKey a0) (variantKey b) ∧
        ∀ x ∈ t, keyLe (variantKey x) (variantKey b) := by
  induction t with
  | nil => intro a0; exact ⟨a0, rfl, Or.inl rfl, keyLe_refl _, by simp⟩
  | cons x t ih =>
    intro a0
    by_cases hc : variantCmp a0 x = .gt
    · obtain ⟨b, hb, hmem, hle, hall⟩ := ih a0
      refine ⟨b, ?_, ?_, hle, ?_⟩
      · simpa [maxByStep, hc] using hb
      · rcases hmem with h | h
        · exact Or.inl h
        · exact Or.inr (List.mem_cons_of_mem _ h)
      · intro y hy
        rcases List.mem_cons.mp hy with rfl | hy
        · exact keyLe_trans (variantCmp_gt_le hc) hle
        · exact hall y hy
    · obtain ⟨b, hb, hmem, hle, hall⟩ := ih x
      refine ⟨b, ?_, ?_, keyLe_trans (variantCmp_ngt_le hc) hle, ?_⟩
      · simpa [maxByStep, hc] using hb
      · rcases hmem with h | h
        · exact Or.inr (h ▸ List.mem_cons_self x t)
        · exact Or.inr (List.mem_cons_of_mem _ h)
      · intro y hy
        rcases List.mem_cons.mp hy with rfl | hy
        · exact hle
        · exact hall y hy

/-- C6 counterexample to "returns none only if the master playlist has no
variants": a master playlist with one variant whose URI is the invalid
absolute URL `https://` makes `base_url.join(..)` fail (`.ok()` is
`none`), so the function returns `none` although variants exist. -/
theorem select_best_variant_none_cex :
    select_best_variant cexMaster cexJoin = none ∧ cexMaster.variants ≠ [] := by
  decide

/-- C6 (amended: the function returns none when the master playlist has
no variants, or when resolving the winning variant's URI against the base
URL fails): `select_best_variant` returns a variant maximal under the
lexicographic key (resolution area, then extracted frame rate), resolved
against the base URL, and over the spec's three example variants it picks
the 1920×1080 at 60 fps one. -/
theorem select_best_variant_max (master : MasterPlaylist) (joinBase : String → Option String) :
    (master.variants = [] → select_best_variant master joinBase = none) ∧
    (master.variants ≠ [] →
      ∃ best ∈ master.variants,
        select_best_variant master joinBase = joinBase best.uri ∧
        ∀ v ∈ master.variants, keyLe (variantKey v) (variantKey best)) ∧
    select_best_variant exampleMaster exampleJoin = some "http://example.com/v1080p60.m3u8" := by
  refine ⟨?_, ?_, by decide⟩
  · intro h; simp [select_best_variant, max_by, h]
  · intro h
    obtain ⟨x, t, hxt⟩ := List.exists_cons_of_ne_nil h
    obtain ⟨b, hb, hmem, hle, hall⟩ := maxByStep_foldl t x
    refine ⟨b, ?_, ?_, ?_⟩
    · rw [hxt]
      rcases hmem with rfl | hm
      · exact List.mem_cons_self _ _
      · exact List.mem_cons_of_mem _ hm
    · unfold select_best_variant max_by
      rw [hxt]
      simp [maxByStep, hb]
    · intro v hv
      rw [hxt] at hv
      rcases List.mem_cons.mp hv with rfl | hv
      · exact hle
      · exact hall v hv

/-- Witness for C6 on the spec's three example variants. -/
theorem select_best_variant_max_witness :
    ∃ best ∈ exampleMaster.variants,
      select_best_variant exampleMaster exampleJoin = exampleJoin best.uri ∧
      ∀ v ∈ exampleMaster.variants, keyLe (variantKey v) (variantKey best) :=
  (select_best_variant_max exampleMaster exampleJoin).2.1 (by decide)

/-! ### C3 -/

theorem fwrGo_spent (total delay : Nat) (oracle : Nat → AttemptBehavior) (idxs : List Nat)
    (e : Nat) (le : Option FetchErr) (h : total ≤ e) :
    (fwrGo total delay oracle idxs e le).1 = [] := by
  cases idxs with
  | nil => rfl
  | cons i rest => simp [fwrGo, h]

theorem afterAttempt_sched (total delay maxR k elapsed elapsed1 : Nat) (isLast : Bool)
    (o : FetchOutcome) (rNoSleep rSleep : List FetchEv × Except FetchErr Nat)
    (hk : k ≤ maxR) (h1 : elapsed < total) (h2 : elapsed ≤ elapsed1) (h3 : elapsed1 ≤ total)
    (hlast : isLast = true → rNoSleep.1 = [])
    (hklt : isLast = false → k < maxR)
    (hspent : total ≤ elapsed1 → rNoSleep.1 = [])
    (hNo : schedOk total delay maxR (k + 1) elapsed1 rNoSleep.1 = true)
    (hSl : schedOk total delay maxR (k + 1) (elapsed1 + min delay (total - elapsed1))
      rSleep.1 = true) :
    schedOk total delay maxR k elapsed
      (afterAttempt total isLast (.att k elapsed (total - elapsed) elapsed1 o) elapsed1
        (min delay (total - elapsed1)) rNoSleep rSleep).1 = true := by
  unfold afterAttempt
  by_cases hc : isLast = false ∧ elapsed1 < total
  · rw [if_pos hc]
    by_cases hsl : min delay (total - elapsed1) = 0
    · rw [if_pos hsl]
      dsimp only
      cases hrec : rNoSleep.1 with
      | nil =>
        simp only [schedOk, attHead, Bool.and_eq_true, beq_iff_eq, decide_eq_true_eq,
          true_and, and_true]
        omega
      | cons e2 tr2 =>
        rw [hrec] at hNo
        cases e2 with
        | att j2 a2 b2 c2 o2 =>
          simp only [schedOk, hNo, Bool.and_true, attHead, Bool.and_eq_true, beq_iff_eq,
            decide_eq_true_eq, true_and, and_true]
          omega
        | slp a2 b2 => simp [schedOk] at hNo
    · rw [if_neg hsl]
      dsimp only
      have hk2 : k < maxR := hklt hc.1
      have hc2 : elapsed1 < total := hc.2
      simp only [schedOk, hSl, Bool.and_true, attHead, Bool.and_eq_true, beq_iff_eq,
        decide_eq_true_eq, true_and, and_true, ne_eq, beq_self_eq_true]
      omega
  · rw [if_neg hc]
    dsimp only
    have hnil : rNoSleep.1 = [] := by
      rcases not_and_or.mp hc with h | h
      · refine hlast ?_
        revert h; cases isLast <;> simp
      · exact hspent (by omega)
    rw [hnil]
    simp only [schedOk, attHead, Bool.and_eq_true, beq_iff_eq, decide_eq_true_eq,
      true_and, and_true]
    omega

theorem fwrGo_sched (total delay maxR : Nat) (oracle : Nat → AttemptBehavior) :
    ∀ (n k elapsed : Nat) (lastErr : Option FetchErr), k + n = maxR + 1 →
      schedOk total delay maxR k elapsed
        (fwrGo total delay oracle (List.range' k n) elapsed lastErr).1 = true := by
  intro n
  induction n with
  | zero => intro k elapsed le hk; simp [List.range', fwrGo, schedOk]
  | succ n ih =>
    intro k elapsed le hk
    rw [List.range'_succ]
    by_cases h1 : total ≤ elapsed
    · rw [fwrGo, if_pos h1]
      simp [schedOk]
    · have hrem : ¬(total - elapsed = 0) := by omega
      rw [fwrGo, if_neg h1]
      rw [if_neg hrem]
      by_cases hd : (oracle k).duration ≤ total - elapsed
      · rw [if_pos hd]
        cases hres : (oracle k).result with
        | some data =>
          simp only [hres]
          simp only [schedOk, attHead, Bool.and_eq_true, beq_iff_eq, decide_eq_true_eq,
            true_and, and_true]
          omega
        | none =>
          simp only [hres]
          apply afterAttempt_sched
          · omega
          · omega
          · omega
          · omega
          · intro hempty
            have : List.range' (k + 1) n = [] := List.isEmpty_iff.mp hempty
            rw [this]
            rfl
          · intro hne
            have : ¬ List.range' (k + 1) n = [] := by
              intro hx; rw [hx] at hne; simp at hne
            have hn : n ≠ 0 := by
              intro h0; rw [h0] at this; simp [List.range'] at this
            omega
          · intro hsp
            exact fwrGo_spent total delay oracle _ _ _ hsp
          · exact ih (k + 1) (elapsed + (oracle k).duration) _ (by omega)
          · exact ih (k + 1) _ _ (by omega)
      · rw [if_neg hd]
        apply afterAttempt_sched
        · omega
        · omega
        · omega
        · omega
        · intro hempty
          have : List.range' (k + 1) n = [] := List.isEmpty_iff.mp hempty
          rw [this]
          rfl
        · intro hne
          have : ¬ List.range' (k + 1) n = [] := by
            intro hx; rw [hx] at hne; simp at hne
          have hn : n ≠ 0 := by
            intro h0; rw [h0] at this; simp [List.range'] at this
          omega
        · intro hsp
          exact fwrGo_spent total delay oracle _ _ _ hsp
        · exact ih (k + 1) (elapsed + (total - elapsed)) _ (by omega)
        · exact ih (k + 1) _ _ (by omega)

theorem lastAttFold_some (tr : List FetchEv) :
    ∀ x : FetchEv, tr.foldl lastAttStep (some x) = some ((lastAttEv tr).getD x) := by
  induction tr with
  | nil => intro x; rfl
  | cons e tr ih =>
    intro x
    cases e with
    | att i a b c o =>
      simp only [List.foldl_cons, lastAttStep, lastAttEv]
      rw [ih]
      simp
    | slp a b =>
      simp only [List.foldl_cons, lastAttStep, lastAttEv]
      exact ih x

theorem lastAttEv_cons_att (i a b c : Nat) (o : FetchOutcome) (tr : List FetchEv) :
    lastAttEv (.att i a b c o :: tr) = some ((lastAttEv tr).getD (.att i a b c o)) := by
  simp only [lastAttEv, List.foldl_cons, lastAttStep]
  exact lastAttFold_some tr _

theorem lastAttEv_cons_att_slp (i a b c e1 d1 : Nat) (o : FetchOutcome) (tr : List FetchEv) :
    lastAttEv (.att i a b c o :: .slp e1 d1 :: tr) =
      some ((lastAttEv tr).getD (.att i a b c o)) := by
  simp only [lastAttEv, List.foldl_cons, lastAttStep]
  exact lastAttFold_some tr _

theorem afterAttempt_err (total : Nat) (isLast : Bool) (i a b c elapsed1 sl : Nat)
    (o : FetchOutcome) (rNo rSl : List FetchEv × Except FetchErr Nat) (e errV : FetchErr)
    (ho : errOfEv (.att i a b c o) = some errV)
    (hNo : rNo.2 = .error e →
      (match lastAttEv rNo.1 with
       | none => e = errV
       | some y => errOfEv y = some e))
    (hSl : rSl.2 = .error e →
      (match lastAttEv rSl.1 with
       | none => e = errV
       | some y => errOfEv y = some e))
    (h : (afterAttempt total isLast (.att i a b c o) elapsed1 sl rNo rSl).2 = .error e) :
    ∃ z, lastAttEv (afterAttempt total isLast (.att i a b c o) elapsed1 sl rNo rSl).1 = some z ∧
      errOfEv z = some e := by
  unfold afterAttempt at h ⊢
  split_ifs at h ⊢ with hc hsl
  · have hm := hNo h
    rw [lastAttEv_cons_att]
    cases hla : lastAttEv rNo.1 with
    | none => rw [hla] at hm; simp only [hm] at ho ⊢; exact ⟨_, rfl, ho⟩
    | some y => rw [hla] at hm; exact ⟨y, by simp [hla], hm⟩
  · have hm := hSl h
    rw [lastAttEv_cons_att_slp]
    cases hla : lastAttEv rSl.1 with
    | none => rw [hla] at hm; simp only [hm] at ho ⊢; exact ⟨_, rfl, ho⟩
    | some y => rw [hla] at hm; exact ⟨y, by simp [hla], hm⟩
  · have hm := hNo h
    rw [lastAttEv_cons_att]
    cases hla : lastAttEv rNo.1 with
    | none => rw [hla] at hm; simp only [hm] at ho ⊢; exact ⟨_, rfl, ho⟩
    | some y => rw [hla] at hm; exact ⟨y, by simp [hla], hm⟩

theorem fwrGo_err (total delay : Nat) (oracle : Nat → AttemptBehavior) :
    ∀ (idxs : List Nat) (elapsed : Nat) (lastErr : Option FetchErr) (e : FetchErr),
      (fwrGo total delay oracle idxs elapsed lastErr).2 = .error e →
      (match lastAttEv (fwrGo total delay oracle idxs elapsed lastErr).1 with
       | none => e = lastErr.getD .budgetExhausted
       | some ev => errOfEv ev = some e) := by
  intro idxs
  induction idxs with
  | nil =>
    intro elapsed le e h
    simp only [fwrGo, Except.error.injEq] at h
    simp [fwrGo, lastAttEv, h]
  | cons i rest ih =>
    intro elapsed le e h
    by_cases h1 : total ≤ elapsed
    · rw [fwrGo, if_pos h1] at h ⊢
      simp only [Except.error.injEq] at h
      simp [lastAttEv, h]
      
    · have hrem : ¬(total - elapsed = 0) := by omega
      rw [fwrGo, if_neg h1, if_neg hrem] at h ⊢
      by_cases hd : (oracle i).duration ≤ total - elapsed
      · rw [if_pos hd] at h ⊢
        cases hres : (oracle i).result with
        | some data => simp [hres] at h
        | none =>
          simp only [hres] at h ⊢
          obtain ⟨z, hz, hq⟩ :=
            afterAttempt_err total rest.isEmpty i elapsed (total - elapsed)
              (elapsed + (oracle i).duration)
              (elapsed + (oracle i).duration)
              (min delay (total - (elapsed + (oracle i).duration)))
              FetchOutcome.failed _ _ e (FetchErr.attemptErr i) rfl
              (ih _ _ e) (ih _ _ e) h
          rw [hz]
          exact hq
      · rw [if_neg hd] at h ⊢
        obtain ⟨z, hz, hq⟩ :=
          afterAttempt_err total rest.isEmpty i elapsed (total - elapsed)
            (elapsed + (total - elapsed))
            (elapsed + (total - elapsed))
            (min delay (total - (elapsed + (total - elapsed))))
            FetchOutcome.timedOut _ _ e FetchErr.timedOut rfl
            (ih _ _ e) (ih _ _ e) h
        rw [hz]
        exact hq

theorem fwrGo_cons_ne_nil (total delay : Nat) (oracle : Nat → AttemptBehavior) (i : Nat)
    (rest : List Nat) (elapsed : Nat) (le : Option FetchErr) (h1 : elapsed < total) :
    (fwrGo total delay oracle (i :: rest) elapsed le).1 ≠ [] := by
  rw [fwrGo, if_neg (by omega), if_neg (by omega)]
  by_cases hd : (oracle i).duration ≤ total - elapsed
  · rw [if_pos hd]
    cases hres : (oracle i).result with
    | some d => simp [hres]
    | none =>
      simp only [hres]
      unfold afterAttempt
      split_ifs <;> simp
  · rw [if_neg hd]
    unfold afterAttempt
    dsimp only
    split_ifs <;> simp

/-- C3: `fetch_with_retry` enforces one wall-clock budget across all
attempts: the trace satisfies the spec-side schedule checker (attempts
numbered consecutively in `0..=max_retries`, each started strictly inside
the budget with the remaining budget as its own timeout, inter-attempt
sleeps of `min retry_delay remaining` only when another attempt follows
and budget remains), an error result is the last recorded attempt error —
or the budget-exhausted fallback when no attempt ran — and an attempt
always runs once the budget is nonzero. -/
theorem retry_budget_schedule (total max_retries delay : Nat)
    (oracle : Nat → AttemptBehavior) :
    schedOk total delay max_retries 0 0
      (fetch_with_retry total max_retries delay oracle).1 = true ∧
    (∀ e : FetchErr, (fetch_with_retry total max_retries delay oracle).2 = .error e →
      (match lastAttEv (fetch_with_retry total max_retries delay oracle).1 with
       | none => e = FetchErr.budgetExhausted
       | some ev => errOfEv ev = some e)) ∧
    (0 < total → (fetch_with_retry total max_retries delay oracle).1 ≠ []) := by
  refine ⟨?_, ?_, ?_⟩
  · unfold fetch_with_retry
    rw [List.range_eq_range']
    exact fwrGo_sched total delay max_retries oracle (max_retries + 1) 0 0 none (by omega)
  · intro e h
    exact fwrGo_err total delay oracle (List.range (max_retries + 1)) 0 none e h
  · intro htot
    unfold fetch_with_retry
    rw [List.range_eq_range', List.range'_succ]
    exact fwrGo_cons_ne_nil total delay oracle 0 _ 0 none htot

/-- Witness for C3: budget 10, two retries, delay 3, every attempt takes
4 units and fails; the schedule checker accepts the trace and the result
is the recorded timeout error of the final attempt. -/
theorem retry_budget_schedule_witness :
    schedOk 10 3 2 0 0 (fetch_with_retry 10 2 3 oracleW).1 = true ∧
    (match lastAttEv (fetch_with_retry 10 2 3 oracleW).1 with
     | none => FetchErr.timedOut = FetchErr.budgetExhausted
     | some ev => errOfEv ev = some FetchErr.timedOut) ∧
    (fetch_with_retry 10 2 3 oracleW).1 ≠ [] := by
  obtain ⟨h1, h2, h3⟩ := retry_budget_schedule 10 2 3 oracleW
  exact ⟨h1, h2 FetchErr.timedOut (by rfl), h3 (by omega)⟩

/-! ### Loop trace helper lemmas -/

@[simp]
theorem examinedUris_rotTrace (cfg : DownloadConfig) (o : Option String) :
    examinedUris (rotTraceOf cfg o) = [] := by
  cases o <;> unfold rotTraceOf segHookEvs <;>
    cases cfg.on_segment <;> simp [examinedUris, examineUriOf]

@[simp]
theorem fetchUris_rotTrace (cfg : DownloadConfig) (o : Option String) :
    fetchUris (rotTraceOf cfg o) = [] := by
  cases o <;> unfold rotTraceOf segHookEvs <;>
    cases cfg.on_segment <;> simp [fetchUris, fetchUriOf]

@[simp]
theorem writeLens_rotTrace (cfg : DownloadConfig) (o : Option String) :
    writeLens (rotTraceOf cfg o) = [] := by
  cases o <;> unfold rotTraceOf segHookEvs <;>
    cases cfg.on_segment <;> simp [writeLens, writeLenOf]

@[simp]
theorem fetchOkLens_rotTrace (cfg : DownloadConfig) (o : Option String) :
    fetchOkLens (rotTraceOf cfg o) = [] := by
  cases o <;> unfold rotTraceOf segHookEvs <;>
    cases cfg.on_segment <;> simp [fetchOkLens, fetchOkLenOf]

@[simp]
theorem finalizeCount_rotTrace (cfg : DownloadConfig) (o : Option String) :
    finalizeCount (rotTraceOf cfg o) = 0 := by
  cases o <;> unfold rotTraceOf segHookEvs <;>
    cases cfg.on_segment <;> simp [finalizeCount, isFinalizeEv]

@[simp]
theorem hookFinalCount_rotTrace (cfg : DownloadConfig) (o : Option String) :
    hookFinalCount (rotTraceOf cfg o) = 0 := by
  cases o <;> unfold rotTraceOf segHookEvs <;>
    cases cfg.on_segment <;> simp [hookFinalCount, isHookFinal]

/-! ### First-seen deduplication lemmas -/

theorem newFirsts_not_mem_seen :
    ∀ (l seen : List String) (x : String), x ∈ newFirsts seen l → x ∉ seen := by
  intro l
  induction l with
  | nil => intro seen x hx; simp [newFirsts] at hx
  | cons u rest ih =>
    intro seen x hx
    unfold newFirsts at hx
    split at hx
    · exact ih seen x hx
    · rcases List.mem_cons.mp hx with rfl | hx
      · assumption
      · intro hmem
        exact ih (u :: seen) x hx (List.mem_cons_of_mem u hmem)

theorem newFirsts_nodup : ∀ (l seen : List String), (newFirsts seen l).Nodup := by
  intro l
  induction l with
  | nil => intro seen; simp [newFirsts]
  | cons u rest ih =>
    intro seen
    unfold newFirsts
    split
    · exact ih seen
    · refine List.Nodup.cons ?_ (ih (u :: seen))
      intro hmem
      exact newFirsts_not_mem_seen rest (u :: seen) u hmem (List.mem_cons_self u seen)

theorem newFirsts_congr :
    ∀ (l s1 s2 : List String), (∀ x, x ∈ s1 ↔ x ∈ s2) → newFirsts s1 l = newFirsts s2 l := by
  intro l
  induction l with
  | nil => intro s1 s2 h; rfl
  | cons u rest ih =>
    intro s1 s2 h
    unfold newFirsts
    by_cases hu : u ∈ s1
    · rw [if_pos hu, if_pos ((h u).mp hu)]
      exact ih s1 s2 h
    · rw [if_neg hu, if_neg (fun hx => hu ((h u).mpr hx))]
      refine congrArg _ (ih (u :: s1) (u :: s2) ?_)
      intro x
      simp only [List.mem_cons]
      exact or_congr Iff.rfl (h x)

theorem newFirsts_cons (s : List String) (u : String) (rest : List String) :
    newFirsts s (u :: rest) =
      if u ∈ s then newFirsts s rest else u :: newFirsts (u :: s) rest := rfl

theorem newFirsts_append :
    ∀ (l1 l2 seen : List String),
      newFirsts seen (l1 ++ l2) = newFirsts seen l1 ++ newFirsts (l1 ++ seen) l2 := by
  intro l1
  induction l1 with
  | nil => intro l2 seen; simp [newFirsts]
  | cons u rest ih =>
    intro l2 seen
    simp only [List.cons_append, newFirsts_cons]
    by_cases hu : u ∈ seen
    · rw [if_pos hu, if_pos hu, ih]
      refine congrArg _ (newFirsts_congr l2 _ _ ?_)
      intro x
      simp only [List.mem_append, List.mem_cons]
      constructor
      · tauto
      · rintro (rfl | hx) <;> tauto
    · rw [if_neg hu, if_neg hu, ih, List.cons_append]
      refine congrArg _ (congrArg _ (newFirsts_congr l2 _ _ ?_))
      intro x
      simp only [List.mem_append, List.mem_cons]
      tauto

/-! ### Segment-loop invariants -/

@[simp]
theorem examinedUris_cons (e : Ev) (tr : List Ev) :
    examinedUris (e :: tr) =
      (match e with | .examineSeg u => [u] | _ => []) ++ examinedUris tr := by
  cases e <;> simp [examinedUris, examineUriOf]

@[simp]
theorem examinedUris_append (a b : List Ev) :
    examinedUris (a ++ b) = examinedUris a ++ examinedUris b := by
  simp [examinedUris]

@[simp]
theorem examinedUris_nil : examinedUris [] = [] := rfl

@[simp]
theorem fetchUris_cons (e : Ev) (tr : List Ev) :
    fetchUris (e :: tr) =
      (match e with | .fetchSeg u _ => [u] | _ => []) ++ fetchUris tr := by
  cases e <;> simp [fetchUris, fetchUriOf]

@[simp]
theorem fetchUris_append (a b : List Ev) :
    fetchUris (a ++ b) = fetchUris a ++ fetchUris b := by
  simp [fetchUris]

@[simp]
theorem fetchUris_nil : fetchUris [] = [] := rfl

@[simp]
theorem fetchOkLens_cons (e : Ev) (tr : List Ev) :
    fetchOkLens (e :: tr) =
      (match e with | .fetchSeg _ (some n) => [n] | _ => []) ++ fetchOkLens tr := by
  cases e with
  | fetchSeg u r => cases r <;> simp [fetchOkLens, fetchOkLenOf]
  | _ => simp [fetchOkLens, fetchOkLenOf]

@[simp]
theorem fetchOkLens_append (a b : List Ev) :
    fetchOkLens (a ++ b) = fetchOkLens a ++ fetchOkLens b := by
  simp [fetchOkLens]

@[simp]
theorem fetchOkLens_nil : fetchOkLens [] = [] := rfl

@[simp]
theorem writeLens_cons (e : Ev) (tr : List Ev) :
    writeLens (e :: tr) =
      (match e with | .writeSeg n => [n] | _ => []) ++ writeLens tr := by
  cases e <;> simp [writeLens, writeLenOf]

@[simp]
theorem writeLens_append (a b : List Ev) :
    writeLens (a ++ b) = writeLens a ++ writeLens b := by
  simp [writeLens]

@[simp]
theorem writeLens_nil : writeLens [] = [] := rfl

@[simp]
theorem finalizeCount_cons (e : Ev) (tr : List Ev) :
    finalizeCount (e :: tr) =
      (match e with | .finalizeEv => 1 | _ => 0) + finalizeCount tr := by
  cases e <;> simp [finalizeCount, isFinalizeEv, List.countP_cons] <;> omega

@[simp]
theorem finalizeCount_append (a b : List Ev) :
    finalizeCount (a ++ b) = finalizeCount a + finalizeCount b := by
  simp [finalizeCount, List.countP_append]

@[simp]
theorem finalizeCount_nil : finalizeCount [] = 0 := rfl

@[simp]
theorem hookFinalCount_cons (e : Ev) (tr : List Ev) :
    hookFinalCount (e :: tr) =
      (match e with | .hookFinal _ => 1 | _ => 0) + hookFinalCount tr := by
  cases e <;> simp [hookFinalCount, isHookFinal, List.countP_cons] <;> omega

@[simp]
theorem hookFinalCount_append (a b : List Ev) :
    hookFinalCount (a ++ b) = hookFinalCount a + hookFinalCount b := by
  simp [hookFinalCount, List.countP_append]

@[simp]
theorem hookFinalCount_nil : hookFinalCount [] = 0 := rfl

theorem procSegs_seen (cfg : DownloadConfig) :
    ∀ (segs : List String) (envs : List SegEnv) (st : LoopState) (u : String),
      u ∈ (procSegs cfg segs envs st).1.seen_segments ↔
        u ∈ st.seen_segments ∨ u ∈ examinedUris (procSegs cfg segs envs st).2.1 := by
  intro segs
  induction segs with
  | nil => intro envs st u; simp [procSegs]
  | cons uri rest ih =>
    intro envs st u
    simp only [procSegs]
    split
    · simp
    · split
      · rename_i hseen
        simp only [examinedUris_cons, List.cons_append, List.nil_append]
        rw [ih envs.tail st u]
        simp only [List.mem_cons]
        constructor
        · tauto
        · rintro (h | rfl | h) <;> tauto
      · rename_i hseen
        split
        · split
          · simp only [examinedUris_cons, examinedUris_append, examinedUris_rotTrace,
              List.cons_append, List.nil_append]
            rw [ih]
            simp only [List.mem_cons]
            tauto
          · simp only [examinedUris_cons, List.cons_append, List.nil_append]
            rw [ih]
            simp only [List.mem_cons]
            tauto
        · simp only [examinedUris_cons, examinedUris_nil, List.cons_append, List.nil_append]
          simp only [List.mem_cons, List.mem_singleton, List.not_mem_nil, or_false]
          tauto

theorem procSegs_fetch (cfg : DownloadConfig) :
    ∀ (segs : List String) (envs : List SegEnv) (st : LoopState),
      fetchUris (procSegs cfg segs envs st).2.1 ++ abortUris (procSegs cfg segs envs st).2.2 =
        newFirsts st.seen_segments (examinedUris (procSegs cfg segs envs st).2.1) := by
  intro segs
  induction segs with
  | nil => intro envs st; simp [procSegs, abortUris, newFirsts]
  | cons uri rest ih =>
    intro envs st
    simp only [procSegs]
    split
    · simp [abortUris, newFirsts]
    · split
      · rename_i hseen
        simp only [examinedUris_cons, fetchUris_cons, List.cons_append, List.nil_append,
          newFirsts_cons]
        rw [if_pos hseen]
        exact ih envs.tail st
      · rename_i hseen
        split
        · split
          · simp only [examinedUris_cons, examinedUris_append, examinedUris_rotTrace,
              fetchUris_cons, fetchUris_append, fetchUris_rotTrace, List.cons_append,
              List.nil_append, newFirsts_cons]
            rw [if_neg hseen]
            exact congrArg _ (ih envs.tail _)
          · simp only [examinedUris_cons, fetchUris_cons, List.cons_append, List.nil_append,
              newFirsts_cons]
            rw [if_neg hseen]
            exact congrArg _ (ih envs.tail _)
        · simp only [examinedUris_cons, examinedUris_nil, fetchUris_cons, fetchUris_nil,
            List.cons_append, List.nil_append, abortUris, newFirsts_cons]
          rw [if_neg hseen]
          rfl

theorem procSegs_bytes (cfg : DownloadConfig) :
    ∀ (segs : List String) (envs : List SegEnv) (st : LoopState),
      (procSegs cfg segs envs st).1.output.total_bytes_written =
        st.output.total_bytes_written + (writeLens (procSegs cfg segs envs st).2.1).sum ∧
      writeLens (procSegs cfg segs envs st).2.1 = fetchOkLens (procSegs cfg segs envs st).2.1 := by
  intro segs
  induction segs with
  | nil => intro envs st; simp [procSegs]
  | cons uri rest ih =>
    intro envs st
    simp only [procSegs]
    split
    · simp
    · split
      · simpa using ih envs.tail st
      · split
        · split
          · rename_i data heq
            have h := ih envs.tail
              { st with
                seen_segments := uri :: st.seen_segments,
                output := (maybe_rotate (st.output.write data) (envs.headD defaultSegEnv).rotateDue).1 }
            simp only [examinedUris_cons, writeLens_cons, writeLens_append, writeLens_rotTrace,
              fetchOkLens_cons, fetchOkLens_append, fetchOkLens_rotTrace, List.cons_append,
              List.nil_append, List.sum_cons]
            constructor
            · rw [h.1]
              simp
              omega
            · exact congrArg _ h.2
          · have h := ih envs.tail { st with seen_segments := uri :: st.seen_segments }
            simp only [writeLens_cons, writeLens_append, fetchOkLens_cons, List.cons_append,
              List.nil_append]
            exact h
        · simp

theorem procSegs_noFinal (cfg : DownloadConfig) :
    ∀ (segs : List String) (envs : List SegEnv) (st : LoopState),
      finalizeCount (procSegs cfg segs envs st).2.1 = 0 ∧
      hookFinalCount (procSegs cfg segs envs st).2.1 = 0 := by
  intro segs
  induction segs with
  | nil => intro envs st; simp [procSegs]
  | cons uri rest ih =>
    intro envs st
    simp only [procSegs]
    split
    · simp
    · split
      · simpa using ih envs.tail st
      · split
        · split
          · rename_i data heq
            have h := ih envs.tail
              { st with
                seen_segments := uri :: st.seen_segments,
                output := (maybe_rotate (st.output.write data) (envs.headD defaultSegEnv).rotateDue).1 }
            simp only [finalizeCount_cons, finalizeCount_append, finalizeCount_rotTrace,
              hookFinalCount_cons, hookFinalCount_append, hookFinalCount_rotTrace]
            omega
          · have h := ih envs.tail { st with seen_segments := uri :: st.seen_segments }
            simp only [finalizeCount_cons, hookFinalCount_cons]
            omega
        · simp

/-- Number of final-hook dispatches a finalize site emits. -/
def onSegHooks (cfg : DownloadConfig) : Nat :=
  match cfg.on_segment with
  | some _ => 1
  | none => 0

@[simp]
theorem examinedUris_hookEvs (cfg : DownloadConfig) (p : String) :
    examinedUris (hookEvs cfg p) = [] := by
  unfold hookEvs; cases cfg.on_segment <;> simp

@[simp]
theorem fetchUris_hookEvs (cfg : DownloadConfig) (p : String) :
    fetchUris (hookEvs cfg p) = [] := by
  unfold hookEvs; cases cfg.on_segment <;> simp

@[simp]
theorem writeLens_hookEvs (cfg : DownloadConfig) (p : String) :
    writeLens (hookEvs cfg p) = [] := by
  unfold hookEvs; cases cfg.on_segment <;> simp

@[simp]
theorem fetchOkLens_hookEvs (cfg : DownloadConfig) (p : String) :
    fetchOkLens (hookEvs cfg p) = [] := by
  unfold hookEvs; cases cfg.on_segment <;> simp

@[simp]
theorem finalizeCount_hookEvs (cfg : DownloadConfig) (p : String) :
    finalizeCount (hookEvs cfg p) = 0 := by
  unfold hookEvs; cases cfg.on_segment <;> simp

@[simp]
theorem hookFinalCount_hookEvs (cfg : DownloadConfig) (p : String) :
    hookFinalCount (hookEvs cfg p) = onSegHooks cfg := by
  unfold hookEvs onSegHooks; cases cfg.on_segment <;> simp

theorem onSegHooks_le_one (cfg : DownloadConfig) : onSegHooks cfg ≤ 1 := by
  unfold onSegHooks; cases cfg.on_segment <;> simp

theorem stepCycle_fetch (cfg : DownloadConfig) (st : LoopState) (c : PollCycle) :
    fetchUris (stepCycle cfg st c).2.1 ++ exitAbortUris (stepCycle cfg st c).2.2 =
      newFirsts st.seen_segments (examinedUris (stepCycle cfg st c).2.1) := by
  cases hsd : c.shutdownAtTop with
  | true => simp [stepCycle, hsd, exitAbortUris, newFirsts]
  | false =>
    cases hp : c.poll with
    | fetchErr =>
      simp only [stepCycle, hsd, hp, Bool.false_eq_true, if_false]
      unfold failStep; split <;> simp [exitAbortUris, newFirsts]
    | fetched po =>
      cases po with
      | media segs el =>
        have hf := procSegs_fetch cfg segs c.segEnv { st with consecutive_failures := 0 }
        simp only [stepCycle, hsd, hp, Bool.false_eq_true, if_false]
        cases hr : (procSegs cfg segs c.segEnv { st with consecutive_failures := 0 }).2.2 with
        | some uri =>
          simp only [hr]
          simp only [hr, abortUris] at hf
          simpa [exitAbortUris] using hf
        | none =>
          simp only [hr]
          simp only [hr, abortUris, List.append_nil] at hf
          split
          · simp [exitAbortUris, hf]
          · simp [exitAbortUris, hf]
      | master =>
        simp only [stepCycle, hsd, hp, Bool.false_eq_true, if_false]
        unfold failStep; split <;> simp [exitAbortUris, newFirsts]
      | failed =>
        simp only [stepCycle, hsd, hp, Bool.false_eq_true, if_false]
        unfold failStep; split <;> simp [exitAbortUris, newFirsts]

theorem stepCycle_seen (cfg : DownloadConfig) (st : LoopState) (c : PollCycle) (u : String) :
    u ∈ (stepCycle cfg st c).1.seen_segments ↔
      u ∈ st.seen_segments ∨ u ∈ examinedUris (stepCycle cfg st c).2.1 := by
  cases hsd : c.shutdownAtTop with
  | true => simp [stepCycle, hsd]
  | false =>
    cases hp : c.poll with
    | fetchErr =>
      simp only [stepCycle, hsd, hp, Bool.false_eq_true, if_false]
      unfold failStep; split <;> simp
    | fetched po =>
      cases po with
      | media segs el =>
        have hs := procSegs_seen cfg segs c.segEnv { st with consecutive_failures := 0 } u
        simp only [stepCycle, hsd, hp, Bool.false_eq_true, if_false]
        cases hr : (procSegs cfg segs c.segEnv { st with consecutive_failures := 0 }).2.2 with
        | some uri => simpa using hs
        | none =>
          simp only [hr]
          split
          · simpa using hs
          · simpa using hs
      | master =>
        simp only [stepCycle, hsd, hp, Bool.false_eq_true, if_false]
        unfold failStep; split <;> simp
      | failed =>
        simp only [stepCycle, hsd, hp, Bool.false_eq_true, if_false]
        unfold failStep; split <;> simp

theorem stepCycle_bytes (cfg : DownloadConfig) (st : LoopState) (c : PollCycle) :
    (stepCycle cfg st c).1.output.total_bytes_written =
      st.output.total_bytes_written + (writeLens (stepCycle cfg st c).2.1).sum ∧
    writeLens (stepCycle cfg st c).2.1 = fetchOkLens (stepCycle cfg st c).2.1 := by
  cases hsd : c.shutdownAtTop with
  | true => simp [stepCycle, hsd]
  | false =>
    cases hp : c.poll with
    | fetchErr =>
      simp only [stepCycle, hsd, hp, Bool.false_eq_true, if_false]
      unfold failStep; split <;> simp
    | fetched po =>
      cases po with
      | media segs el =>
        have hb := procSegs_bytes cfg segs c.segEnv { st with consecutive_failures := 0 }
        simp only [stepCycle, hsd, hp, Bool.false_eq_true, if_false]
        cases hr : (procSegs cfg segs c.segEnv { st with consecutive_failures := 0 }).2.2 with
        | some uri => simpa using hb
        | none =>
          simp only [hr]
          split
          · simpa using hb
          · simpa using hb
      | master =>
        simp only [stepCycle, hsd, hp, Bool.false_eq_true, if_false]
        unfold failStep; split <;> simp
      | failed =>
        simp only [stepCycle, hsd, hp, Bool.false_eq_true, if_false]
        unfold failStep; split <;> simp

theorem stepCycle_final (cfg : DownloadConfig) (st : LoopState) (c : PollCycle) :
    ((stepCycle cfg st c).2.2 = some .shutdownReq ∨
        (stepCycle cfg st c).2.2 = some .endOfStream →
      (stepCycle cfg st c).1.finalized = true ∧
      finalizeCount (stepCycle cfg st c).2.1 = 1 ∧
      hookFinalCount (stepCycle cfg st c).2.1 = onSegHooks cfg) ∧
    ((stepCycle cfg st c).2.2 = none ∨
        (stepCycle cfg st c).2.2 = some .budgetExhausted ∨
        (∃ u, (stepCycle cfg st c).2.2 = some (.joinErr u)) →
      (stepCycle cfg st c).1.finalized = st.finalized ∧
      finalizeCount (stepCycle cfg st c).2.1 = 0 ∧
      hookFinalCount (stepCycle cfg st c).2.1 = 0) := by
  cases hsd : c.shutdownAtTop with
  | true =>
    constructor
    · intro hx; simp [stepCycle, hsd]
    · intro hx
      simp only [stepCycle, hsd, if_true] at hx
      rcases hx with hx | hx | ⟨u, hx⟩ <;> simp at hx
  | false =>
    cases hp : c.poll with
    | fetchErr =>
      constructor
      · intro hx
        simp only [stepCycle, hsd, hp, Bool.false_eq_true, if_false] at hx
        unfold failStep at hx
        split at hx <;> rcases hx with hx | hx <;> simp at hx
      · intro hx
        simp only [stepCycle, hsd, hp, Bool.false_eq_true, if_false]
        unfold failStep; split <;> simp
    | fetched po =>
      cases po with
      | media segs el =>
        have hm := procSegs_meta cfg segs c.segEnv { st with consecutive_failures := 0 }
        have hn := procSegs_noFinal cfg segs c.segEnv { st with consecutive_failures := 0 }
        simp only [stepCycle, hsd, hp, Bool.false_eq_true, if_false]
        cases hr : (procSegs cfg segs c.segEnv { st with consecutive_failures := 0 }).2.2 with
        | some uri =>
          simp only [hr]
          constructor
          · intro hx; rcases hx with hx | hx <;> simp at hx
          · intro hx
            exact ⟨hm.2.2.2.2, hn.1, hn.2⟩
        | none =>
          simp only [hr]
          split
          · constructor
            · intro hx
              refine ⟨rfl, ?_, ?_⟩
              · simp [hn.1]
              · simp [hn.2]
            · intro hx
              rcases hx with hx | hx | ⟨u, hx⟩ <;> simp at hx
          · constructor
            · intro hx; rcases hx with hx | hx <;> simp at hx
            · intro hx
              refine ⟨hm.2.2.2.2, ?_, ?_⟩
              · simp [hn.1]
              · simp [hn.2]
      | master =>
        constructor
        · intro hx
          simp only [stepCycle, hsd, hp, Bool.false_eq_true, if_false] at hx
          unfold failStep at hx
          split at hx <;> rcases hx with hx | hx <;> simp at hx
        · intro hx
          simp only [stepCycle, hsd, hp, Bool.false_eq_true, if_false]
          unfold failStep; split <;> simp
      | failed =>
        constructor
        · intro hx
          simp only [stepCycle, hsd, hp, Bool.false_eq_true, if_false] at hx
          unfold failStep at hx
          split at hx <;> rcases hx with hx | hx <;> simp at hx
        · intro hx
          simp only [stepCycle, hsd, hp, Bool.false_eq_true, if_false]
          unfold failStep; split <;> simp

theorem runLoop_fetch (cfg : DownloadConfig) :
    ∀ (cs : List PollCycle) (st : LoopState),
      (fetchUris (runLoop cfg cs st).2.1 ++ exitAbortUris (runLoop cfg cs st).2.2 =
        newFirsts st.seen_segments (examinedUris (runLoop cfg cs st).2.1)) ∧
      (∀ u, u ∈ (runLoop cfg cs st).1.seen_segments ↔
        u ∈ st.seen_segments ∨ u ∈ examinedUris (runLoop cfg cs st).2.1) := by
  intro cs
  induction cs with
  | nil => intro st; simp [runLoop, exitAbortUris, newFirsts]
  | cons c cs ih =>
    intro st
    have hsf := stepCycle_fetch cfg st c
    have hss := stepCycle_seen cfg st c
    simp only [runLoop]
    cases hex : (stepCycle cfg st c).2.2 with
    | some ex =>
      simp only [hex]
      rw [hex] at hsf
      exact ⟨hsf, fun u => hss u⟩
    | none =>
      simp only [hex]
      rw [hex] at hsf
      simp only [exitAbortUris, List.append_nil] at hsf
      obtain ⟨ihf, ihs⟩ := ih (stepCycle cfg st c).1
      constructor
      · simp only [examinedUris_append, fetchUris_append, List.append_assoc]
        rw [ihf, newFirsts_append, hsf]
        refine congrArg _ (newFirsts_congr _ _ _ ?_)
        intro x
        rw [hss x]
        simp only [List.mem_append]
        tauto
      · intro u
        rw [ihs u, hss u]
        simp only [examinedUris_append, List.mem_append]
        tauto

theorem runLoop_bytes (cfg : DownloadConfig) :
    ∀ (cs : List PollCycle) (st : LoopState),
      (runLoop cfg cs st).1.output.total_bytes_written =
        st.output.total_bytes_written + (writeLens (runLoop cfg cs st).2.1).sum ∧
      writeLens (runLoop cfg cs st).2.1 = fetchOkLens (runLoop cfg cs st).2.1 := by
  intro cs
  induction cs with
  | nil => intro st; simp [runLoop]
  | cons c cs ih =>
    intro st
    have hsb := stepCycle_bytes cfg st c
    simp only [runLoop]
    cases hex : (stepCycle cfg st c).2.2 with
    | some ex => exact hsb
    | none =>
      obtain ⟨ihb, ihe⟩ := ih (stepCycle cfg st c).1
      constructor
      · simp only [writeLens_append, List.sum_append]
        rw [ihb, hsb.1]
        omega
      · simp only [writeLens_append, fetchOkLens_append]
        rw [ihe, hsb.2]

theorem runLoop_final (cfg : DownloadConfig) :
    ∀ (cs : List PollCycle) (st : LoopState), st.finalized = false →
      ((runLoop cfg cs st).2.2 = some .shutdownReq ∨
          (runLoop cfg cs st).2.2 = some .endOfStream →
        (runLoop cfg cs st).1.finalized = true ∧
        finalizeCount (runLoop cfg cs st).2.1 = 1 ∧
        hookFinalCount (runLoop cfg cs st).2.1 = onSegHooks cfg) ∧
      ((runLoop cfg cs st).2.2 = none ∨
          (runLoop cfg cs st).2.2 = some .budgetExhausted ∨
          (∃ u, (runLoop cfg cs st).2.2 = some (.joinErr u)) →
        (runLoop cfg cs st).1.finalized = false ∧
        finalizeCount (runLoop cfg cs st).2.1 = 0 ∧
        hookFinalCount (runLoop cfg cs st).2.1 = 0) := by
  intro cs
  induction cs with
  | nil =>
    intro st hfin
    constructor
    · intro hx; rcases hx with hx | hx <;> simp [runLoop] at hx
    · intro hx; simp [runLoop, hfin]
  | cons c cs ih =>
    intro st hfin
    have hsf := stepCycle_final cfg st c
    simp only [runLoop]
    cases hex : (stepCycle cfg st c).2.2 with
    | some ex =>
      simp only [hex]
      cases ex with
      | shutdownReq =>
        obtain ⟨h1, h2, h3⟩ := hsf.1 (by rw [hex]; exact Or.inl rfl)
        constructor
        · intro hx; exact ⟨h1, h2, h3⟩
        · intro hx; rcases hx with hx | hx | ⟨u, hx⟩ <;> simp at hx
      | endOfStream =>
        obtain ⟨h1, h2, h3⟩ := hsf.1 (by rw [hex]; exact Or.inr rfl)
        constructor
        · intro hx; exact ⟨h1, h2, h3⟩
        · intro hx; rcases hx with hx | hx | ⟨u, hx⟩ <;> simp at hx
      | budgetExhausted =>
        obtain ⟨h1, h2, h3⟩ := hsf.2 (by rw [hex]; exact Or.inr (Or.inl rfl))
        constructor
        · intro hx; rcases hx with hx | hx <;> simp at hx
        · intro hx; exact ⟨hfin ▸ h1, h2, h3⟩
      | joinErr u =>
        obtain ⟨h1, h2, h3⟩ := hsf.2 (by rw [hex]; exact Or.inr (Or.inr ⟨u, rfl⟩))
        constructor
        · intro hx; rcases hx with hx | hx <;> simp at hx
        · intro hx; exact ⟨hfin ▸ h1, h2, h3⟩
    | none =>
      simp only [hex]
      obtain ⟨h1, h2, h3⟩ := hsf.2 (by rw [hex]; exact Or.inl rfl)
      have hfin1 : (stepCycle cfg st c).1.finalized = false := hfin ▸ h1
      obtain ⟨ih1, ih2⟩ := ih (stepCycle cfg st c).1 hfin1
      constructor
      · intro hx
        obtain ⟨g1, g2, g3⟩ := ih1 hx
        refine ⟨g1, ?_, ?_⟩
        · simp [h2, g2]
        · simp [h3, g3]
      · intro hx
        obtain ⟨g1, g2, g3⟩ := ih2 hx
        refine ⟨g1, ?_, ?_⟩
        · simp [h2, g2]
        · simp [h3, g3]

theorem runLoop_append (cfg : DownloadConfig) :
    ∀ (cs ds : List PollCycle) (st : LoopState),
      runLoop cfg (cs ++ ds) st =
        (match (runLoop cfg cs st).2.2 with
         | some _ => runLoop cfg cs st
         | none =>
           ((runLoop cfg ds (runLoop cfg cs st).1).1,
             (runLoop cfg cs st).2.1 ++ (runLoop cfg ds (runLoop cfg cs st).1).2.1,
             (runLoop cfg ds (runLoop cfg cs st).1).2.2)) := by
  intro cs
  induction cs with
  | nil => intro ds st; simp [runLoop]
  | cons c cs ih =>
    intro ds st
    simp only [List.cons_append, runLoop]
    cases hex : (stepCycle cfg st c).2.2 with
    | some ex => simp only [hex]
    | none =>
      simp only [hex, List.append_eq]
      rw [ih ds (stepCycle cfg st c).1]
      cases hex2 : (runLoop cfg cs (stepCycle cfg st c).1).2.2 with
      | some ex2 => simp only [hex2]
      | none => simp only [hex2, List.append_assoc]

theorem runFull_eq (cfg : DownloadConfig) (cs : List PollCycle) (st : LoopState) :
    (runFull cfg cs st).2.2 = (runLoop cfg cs st).2.2 ∧
    examinedUris (runFull cfg cs st).2.1 = examinedUris (runLoop cfg cs st).2.1 ∧
    fetchUris (runFull cfg cs st).2.1 = fetchUris (runLoop cfg cs st).2.1 ∧
    writeLens (runFull cfg cs st).2.1 = writeLens (runLoop cfg cs st).2.1 ∧
    fetchOkLens (runFull cfg cs st).2.1 = fetchOkLens (runLoop cfg cs st).2.1 ∧
    (runFull cfg cs st).1.output.total_bytes_written =
      (runLoop cfg cs st).1.output.total_bytes_written ∧
    (runFull cfg cs st).1.seen_segments = (runLoop cfg cs st).1.seen_segments := by
  simp only [runFull]
  cases hex : (runLoop cfg cs st).2.2 with
  | none => simp [hex]
  | some ex =>
    cases ex with
    | shutdownReq => simp only [hex]; split <;> simp [hex]
    | endOfStream => simp only [hex]; split <;> simp [hex]
    | budgetExhausted => simp only [hex]; split <;> simp [hex]
    | joinErr u => simp [hex]

/-! ### C1 -/

/-- C1: in every run of the ingestion loop, each unique raw segment URI
is fetched at most once (the fetch-event URI list has no duplicates, with
failed fetches counted, since the URI enters the `SeenSet` before its
download starts), the unique URIs are downloaded in first-seen playlist
order (the fetched list, extended with a URI whose `Url::join` failure
aborted the run after its insertion, is exactly the first occurrences of
the examined URI stream), and the final seen set is exactly the set of
examined URIs. -/
theorem uri_fetched_at_most_once (cfg : DownloadConfig) (out : OutputState)
    (cs : List PollCycle) :
    (fetchUris (runFull cfg cs (initLoopState out)).2.1).Nodup ∧
    fetchUris (runFull cfg cs (initLoopState out)).2.1 ++
        exitAbortUris (runFull cfg cs (initLoopState out)).2.2 =
      firstSeen (examinedUris (runFull cfg cs (initLoopState out)).2.1) ∧
    (∀ u, u ∈ (runFull cfg cs (initLoopState out)).1.seen_segments ↔
      u ∈ examinedUris (runFull cfg cs (initLoopState out)).2.1) := by
  obtain ⟨he, hex, hfu, hwl, hok, hb, hseen⟩ := runFull_eq cfg cs (initLoopState out)
  obtain ⟨hrf, hrs⟩ := runLoop_fetch cfg cs (initLoopState out)
  have hmain : fetchUris (runFull cfg cs (initLoopState out)).2.1 ++
      exitAbortUris (runFull cfg cs (initLoopState out)).2.2 =
      firstSeen (examinedUris (runFull cfg cs (initLoopState out)).2.1) := by
    rw [he, hex, hfu]
    exact hrf
  refine ⟨?_, hmain, ?_⟩
  · have hnd : (fetchUris (runFull cfg cs (initLoopState out)).2.1 ++
        exitAbortUris (runFull cfg cs (initLoopState out)).2.2).Nodup := by
      rw [hmain]
      exact newFirsts_nodup _ _
    exact hnd.of_append_left
  · intro u
    rw [hseen, hex, hrs u]
    simp [initLoopState]

/-! ### C2 -/

/-- C2: on each of the loop's exit paths — shutdown request, end of
stream, failure-budget exhaustion — `finalize` runs exactly once and the
`finalized` flag is set; the final-file completion hook is dispatched at
most once on every run (exactly once per configured hook on those three
paths), so no pair of overlapping exit conditions double-fires. -/
theorem finalize_exactly_once_on_exit (cfg : DownloadConfig) (out : OutputState)
    (cs : List PollCycle) :
    hookFinalCount (runFull cfg cs (initLoopState out)).2.1 ≤ 1 ∧
    ((runFull cfg cs (initLoopState out)).2.2 = some .shutdownReq ∨
        (runFull cfg cs (initLoopState out)).2.2 = some .endOfStream ∨
        (runFull cfg cs (initLoopState out)).2.2 = some .budgetExhausted →
      finalizeCount (runFull cfg cs (initLoopState out)).2.1 = 1 ∧
      hookFinalCount (runFull cfg cs (initLoopState out)).2.1 = onSegHooks cfg ∧
      (runFull cfg cs (initLoopState out)).1.finalized = true) := by
  obtain ⟨h1, h2⟩ := runLoop_final cfg cs (initLoopState out) rfl
  cases hex : (runLoop cfg cs (initLoopState out)).2.2 with
  | none =>
    obtain ⟨g1, g2, g3⟩ := h2 (Or.inl hex)
    have hrf : runFull cfg cs (initLoopState out) = runLoop cfg cs (initLoopState out) := by
      simp [runFull, hex]
    rw [hrf]
    constructor
    · simp [g3]
    · intro hx; rw [hex] at hx; rcases hx with hx | hx | hx <;> simp at hx
  | some ex =>
    cases ex with
    | shutdownReq =>
      obtain ⟨g1, g2, g3⟩ := h1 (Or.inl hex)
      have hrf : runFull cfg cs (initLoopState out) = runLoop cfg cs (initLoopState out) := by
        simp [runFull, hex, g1]
      rw [hrf]
      exact ⟨by have := onSegHooks_le_one cfg; omega, fun hx => ⟨g2, g3, g1⟩⟩
    | endOfStream =>
      obtain ⟨g1, g2, g3⟩ := h1 (Or.inr hex)
      have hrf : runFull cfg cs (initLoopState out) = runLoop cfg cs (initLoopState out) := by
        simp [runFull, hex, g1]
      rw [hrf]
      exact ⟨by have := onSegHooks_le_one cfg; omega, fun hx => ⟨g2, g3, g1⟩⟩
    | budgetExhausted =>
      obtain ⟨g1, g2, g3⟩ := h2 (Or.inr (Or.inl hex))
      have hrf : runFull cfg cs (initLoopState out) =
          ({ (runLoop cfg cs (initLoopState out)).1 with finalized := true },
            (runLoop cfg cs (initLoopState out)).2.1 ++
              Ev.finalizeEv ::
                hookEvs cfg (currentPath (runLoop cfg cs (initLoopState out)).1.output),
            some ExitReason.budgetExhausted) := by
        simp [runFull, hex, g1]
      rw [hrf]
      refine ⟨?_, fun hx => ⟨?_, ?_, rfl⟩⟩
      · simp only [hookFinalCount_append, hookFinalCount_cons, hookFinalCount_hookEvs, g3]
        have := onSegHooks_le_one cfg
        omega
      · simp [g2]
      · simp [g3]
    | joinErr u =>
      obtain ⟨g1, g2, g3⟩ := h2 (Or.inr (Or.inr ⟨u, hex⟩))
      have hrf : runFull cfg cs (initLoopState out) = runLoop cfg cs (initLoopState out) := by
        simp [runFull, hex]
      rw [hrf]
      constructor
      · simp [g3]
      · intro hx; rw [hex] at hx; rcases hx with hx | hx | hx <;> simp at hx

/-- Witness for C2: a run shut down at the top of its first cycle
finalizes exactly once and dispatches the configured hook once. -/
theorem finalize_exactly_once_on_exit_witness :
    finalizeCount
        (runFull cfgW [⟨true, .fetchErr, []⟩] (initLoopState outW)).2.1 = 1 ∧
    hookFinalCount
        (runFull cfgW [⟨true, .fetchErr, []⟩] (initLoopState outW)).2.1 = onSegHooks cfgW ∧
    (runFull cfgW [⟨true, .fetchErr, []⟩] (initLoopState outW)).1.finalized = true := by
  have h := finalize_exactly_once_on_exit cfgW outW [⟨true, .fetchErr, []⟩]
  exact h.2 (Or.inl (by rfl))

/-! ### C4 -/

/-- C4: after any run, the output byte counter equals its initial value
plus the sum of the payload sizes of exactly the fetch successes, each of
which was appended to the output (the write lengths coincide with the
successful fetch lengths), independent of rotations; and the counter is
monotonically non-decreasing as the run is extended, so failed fetches
never affect it. -/
theorem total_bytes_accounting (cfg : DownloadConfig) (out : OutputState)
    (cs : List PollCycle) :
    (runFull cfg cs (initLoopState out)).1.output.total_bytes_written =
      out.total_bytes_written +
        (fetchOkLens (runFull cfg cs (initLoopState out)).2.1).sum ∧
    writeLens (runFull cfg cs (initLoopState out)).2.1 =
      fetchOkLens (runFull cfg cs (initLoopState out)).2.1 ∧
    ∀ ds : List PollCycle,
      (runFull cfg cs (initLoopState out)).1.output.total_bytes_written ≤
        (runFull cfg (cs ++ ds) (initLoopState out)).1.output.total_bytes_written := by
  obtain ⟨he, hex, hfu, hwl, hok, hb, hseen⟩ := runFull_eq cfg cs (initLoopState out)
  obtain ⟨hb1, hb2⟩ := runLoop_bytes cfg cs (initLoopState out)
  have heq : writeLens (runFull cfg cs (initLoopState out)).2.1 =
      fetchOkLens (runFull cfg cs (initLoopState out)).2.1 := by
    rw [hwl, hok]; exact hb2
  refine ⟨?_, heq, ?_⟩
  · rw [hb, hok, hb1, hb2]
    rfl
  · intro ds
    obtain ⟨he3, hex3, hfu3, hwl3, hok3, hb3, hseen3⟩ :=
      runFull_eq cfg (cs ++ ds) (initLoopState out)
    rw [hb, hb3, runLoop_append]
    cases hex2 : (runLoop cfg cs (initLoopState out)).2.2 with
    | some ex => simp only [hex2]; exact le_refl _
    | none =>
      simp only [hex2]
      have := (runLoop_bytes cfg ds (runLoop cfg cs (initLoopState out)).1).1
      omega

/-! ### C5 -/

theorem stepCycle_no_budget_of_zero (cfg : DownloadConfig) (st : LoopState) (c : PollCycle)
    (h0 : cfg.max_failures = 0) :
    (stepCycle cfg st c).2.2 ≠ some .budgetExhausted := by
  cases hsd : c.shutdownAtTop with
  | true => simp [stepCycle, hsd]
  | false =>
    cases hp : c.poll with
    | fetchErr =>
      simp only [stepCycle, hsd, hp, Bool.false_eq_true, if_false]
      unfold failStep
      rw [if_neg (by omega)]
      simp
    | fetched po =>
      cases po with
      | media segs el =>
        simp only [stepCycle, hsd, hp, Bool.false_eq_true, if_false]
        cases hr : (procSegs cfg segs c.segEnv { st with consecutive_failures := 0 }).2.2 with
        | some uri => simp [hr]
        | none =>
          simp only [hr]
          split <;> simp
      | master =>
        simp only [stepCycle, hsd, hp, Bool.false_eq_true, if_false]
        unfold failStep
        rw [if_neg (by omega)]
        simp
      | failed =>
        simp only [stepCycle, hsd, hp, Bool.false_eq_true, if_false]
        unfold failStep
        rw [if_neg (by omega)]
        simp

theorem stepCycle_fail_spec (cfg : DownloadConfig) (st : LoopState) (envs : List SegEnv)
    (po : PollOutcome)
    (hpo : po = .fetchErr ∨ po = .fetched .failed ∨ po = .fetched .master) :
    (stepCycle cfg st ⟨false, po, envs⟩).1.consecutive_failures =
      st.consecutive_failures + 1 ∧
    ((stepCycle cfg st ⟨false, po, envs⟩).2.2 = some .budgetExhausted ↔
      0 < cfg.max_failures ∧ cfg.max_failures ≤ st.consecutive_failures + 1) ∧
    ((stepCycle cfg st ⟨false, po, envs⟩).2.2 = none →
      (stepCycle cfg st ⟨false, po, envs⟩).2.1 = [.sleepPoll]) ∧
    ((stepCycle cfg st ⟨false, po, envs⟩).2.2 = none ∨
      (stepCycle cfg st ⟨false, po, envs⟩).2.2 = some .budgetExhausted) := by
  have hfail : ∀ r : LoopState × List Ev × Option ExitReason,
      r = failStep cfg st →
      r.1.consecutive_failures = st.consecutive_failures + 1 ∧
      (r.2.2 = some .budgetExhausted ↔
        0 < cfg.max_failures ∧ cfg.max_failures ≤ st.consecutive_failures + 1) ∧
      (r.2.2 = none → r.2.1 = [.sleepPoll]) ∧
      (r.2.2 = none ∨ r.2.2 = some .budgetExhausted) := by
    intro r hr
    subst hr
    unfold failStep
    split
    · rename_i hcond
      exact ⟨rfl, by simp [hcond], by simp, Or.inr rfl⟩
    · rename_i hcond
      exact ⟨rfl, by simp [hcond], fun _ => rfl, Or.inl rfl⟩
  rcases hpo with rfl | rfl | rfl
  · exact hfail _ rfl
  · exact hfail _ rfl
  · exact hfail _ rfl

/-- C5: a playlist fetch error, an unparseable body and a master-playlist
body all drive the same consecutive-failure counter: the counter
increments by one, the loop stops with the budget-exhausted error exactly
when `max_failures` is positive and reached, and otherwise the cycle ends
with the poll-interval sleep and continues; a successfully parsed media
playlist resets the counter to zero; and with `max_failures = 0` the loop
never exits on the failure budget. -/
theorem playlist_failure_budget (cfg : DownloadConfig) :
    (∀ (st : LoopState) (envs : List SegEnv),
      ∀ po ∈ [PollOutcome.fetchErr, .fetched .failed, .fetched .master],
        (stepCycle cfg st ⟨false, po, envs⟩).1.consecutive_failures =
          st.consecutive_failures + 1 ∧
        ((stepCycle cfg st ⟨false, po, envs⟩).2.2 = some .budgetExhausted ↔
          0 < cfg.max_failures ∧ cfg.max_failures ≤ st.consecutive_failures + 1) ∧
        ((stepCycle cfg st ⟨false, po, envs⟩).2.2 = none →
          (stepCycle cfg st ⟨false, po, envs⟩).2.1 = [.sleepPoll]) ∧
        ((stepCycle cfg st ⟨false, po, envs⟩).2.2 = none ∨
          (stepCycle cfg st ⟨false, po, envs⟩).2.2 = some .budgetExhausted)) ∧
    (∀ (st : LoopState) (envs : List SegEnv) (segs : List String) (el : Bool),
      (stepCycle cfg st ⟨false, .fetched (.media segs el), envs⟩).1.consecutive_failures
        = 0) ∧
    (cfg.max_failures = 0 →
      ∀ (cs : List PollCycle) (st : LoopState),
        (runLoop cfg cs st).2.2 ≠ some .budgetExhausted) := by
  refine ⟨?_, ?_, ?_⟩
  · intro st envs po hpo
    refine stepCycle_fail_spec cfg st envs po ?_
    simp only [List.mem_cons, List.mem_singleton] at hpo
    rcases hpo with rfl | rfl | hpo
    · exact Or.inl rfl
    · exact Or.inr (Or.inl rfl)
    · rcases hpo with rfl | hpo
      · exact Or.inr (Or.inr rfl)
      · simp at hpo
  · intro st envs segs el
    have hm := procSegs_meta cfg segs envs { st with consecutive_failures := 0 }
    simp only [stepCycle]
    rw [if_neg (by simp)]
    cases hr : (procSegs cfg segs envs { st with consecutive_failures := 0 }).2.2 with
    | some uri =>
      simp only [hr]
      exact hm.2.2.2.1
    | none =>
      simp only [hr]
      split
      · exact hm.2.2.2.1
      · exact hm.2.2.2.1
  · intro h0 cs
    induction cs with
    | nil => intro st; simp [runLoop]
    | cons c cs ih =>
      intro st
      simp only [runLoop]
      cases hex : (stepCycle cfg st c).2.2 with
      | some ex =>
        simp only [hex]
        intro hcontra
        apply stepCycle_no_budget_of_zero cfg st c h0
        rw [hex]
        simpa using hcontra
      | none =>
        simp only [hex]
        exact ih (stepCycle cfg st c).1

/-- Witness for C5: a master-playlist body under a budget of 2 with zero
prior failures increments the counter to 1 and leads to a sleep, not an
exit. -/
theorem playlist_failure_budget_witness :
    (stepCycle cfgW (initLoopState outW)
        ⟨false, .fetched .master, []⟩).1.consecutive_failures = 0 + 1 ∧
    (stepCycle cfgW (initLoopState outW) ⟨false, .fetched .master, []⟩).2.1 =
      [.sleepPoll] := by
  have h := (playlist_failure_budget cfgW).1 (initLoopState outW) []
    (.fetched .master) (by simp)
  exact ⟨h.1, h.2.2.1 (by rfl)⟩

/-! ### C10 -/

theorem stepCycle_master_eq (cfg : DownloadConfig) (st : LoopState) (sd : Bool)
    (envs : List SegEnv) :
    stepCycle cfg st ⟨sd, .fetched .master, envs⟩ =
      stepCycle cfg st ⟨sd, .fetched .failed, envs⟩ := rfl

theorem runLoop_master_failed (cfg : DownloadConfig) :
    ∀ (pre : List PollCycle) (sd : Bool) (envs : List SegEnv) (post : List PollCycle)
      (st : LoopState),
      runLoop cfg (pre ++ PollCycle.mk sd (.fetched .master) envs :: post) st =
        runLoop cfg (pre ++ PollCycle.mk sd (.fetched .failed) envs :: post) st := by
  intro pre
  induction pre with
  | nil =>
    intro sd envs post st
    simp only [List.nil_append, runLoop, stepCycle_master_eq]
  | cons c cs ih =>
    intro sd envs post st
    simp only [List.cons_append, runLoop]
    cases hex : (stepCycle cfg st c).2.2 with
    | some ex => simp only [hex]
    | none =>
      simp only [hex, List.append_eq]
      rw [ih]

/-- C10: a fetched body that parses as a master playlist goes through the
same catch-all arm as an unparseable body: substituting one for the other
anywhere in a run leaves the entire run result unchanged, and the master
body increments the consecutive-failure counter and trips the
max-failures budget under exactly the same condition a parse failure
does. -/
theorem master_playlist_counts_as_parse_failure (cfg : DownloadConfig) (st : LoopState)
    (pre post : List PollCycle) (sd : Bool) (envs : List SegEnv) :
    runFull cfg (pre ++ PollCycle.mk sd (.fetched .master) envs :: post) st =
      runFull cfg (pre ++ PollCycle.mk sd (.fetched .failed) envs :: post) st ∧
    (stepCycle cfg st ⟨false, .fetched .master, envs⟩).1.consecutive_failures =
      st.consecutive_failures + 1 ∧
    ((stepCycle cfg st ⟨false, .fetched .master, envs⟩).2.2 = some .budgetExhausted ↔
      0 < cfg.max_failures ∧ cfg.max_failures ≤ st.consecutive_failures + 1) := by
  have h := stepCycle_fail_spec cfg st envs (.fetched .master) (Or.inr (Or.inr rfl))
  refine ⟨?_, h.1, h.2.1⟩
  unfold runFull
  rw [runLoop_master_failed]

/-- Witness for C10 at a one-cycle run. -/
theorem master_playlist_counts_as_parse_failure_witness :
    runFull cfgW ([] ++ PollCycle.mk false (.fetched .master) [] :: []) (initLoopState outW) =
      runFull cfgW ([] ++ PollCycle.mk false (.fetched .failed) [] :: []) (initLoopState outW) ∧
    (stepCycle cfgW (initLoopState outW)
        ⟨false, .fetched .master, []⟩).1.consecutive_failures = 0 + 1 := by
  have h := master_playlist_counts_as_parse_failure cfgW (initLoopState outW) [] [] false []
  exact ⟨h.1, h.2.1⟩
